import Mathlib

/-!
Verification development for the channel-mcp enrichment worker.

Shallow embedding of the worker's pure core (src/worker/tagging.py,
src/worker/ollama_client.py, src/worker/llm_backend.py, the RateTracker of
src/worker/main.py, and the notifier/gateway state machines of
src/worker/telegram_notifier.py and src/worker/telegram_gateway.py).

Machine reals (Python float) are modelled by the rationals; текст values are
Lean Strings, whose characters are Unicode codepoints exactly like Python str.
Network and JSON-decoding boundaries are modelled as explicit inputs
(already-parsed JSON values / call outcomes).
-/

/- ### Character helpers (Python str case/class semantics for ASCII + Cyrillic)

The worker only manipulates Latin and Cyrillic text; the case maps below are
the restriction of Python str.lower/str.upper to those alphabets
(А..Я is U+0410..U+042F, а..я is U+0430..U+044F, Ё/ё are U+0401/U+0451). -/

def isAsciiUpperCh (c : Char) : Bool := 'A' ≤ c && c ≤ 'Z'

def isAsciiLowerCh (c : Char) : Bool := 'a' ≤ c && c ≤ 'z'

def isCyrUpperCh (c : Char) : Bool := 'А' ≤ c && c ≤ 'Я'

def isCyrLowerCh (c : Char) : Bool := 'а' ≤ c && c ≤ 'я'

def isDigitCh (c : Char) : Bool := '0' ≤ c && c ≤ '9'

def pyLowerCh (c : Char) : Char :=
  if isAsciiUpperCh c || isCyrUpperCh c then Char.ofNat (c.toNat + 32)
  else if c = 'Ё' then 'ё' else c

def pyUpperCh (c : Char) : Char :=
  if isAsciiLowerCh c || isCyrLowerCh c then Char.ofNat (c.toNat - 32)
  else if c = 'ё' then 'Ё' else c

/-- Python str.strip() whitespace class (ASCII part: space, \t, \n, \r, \x0b, \x0c). -/
def isWsCh (c : Char) : Bool :=
  c = ' ' || c = '\t' || c = '\n' || c = '\r' || c.toNat = 11 || c.toNat = 12

/-- Python regex word character (\w with re.UNICODE), restricted to the
alphabets the worker handles: ASCII letters, digits, underscore, Cyrillic. -/
def isWordCh (c : Char) : Bool :=
  isAsciiUpperCh c || isAsciiLowerCh c || isDigitCh c || c = '_' ||
    isCyrUpperCh c || isCyrLowerCh c || c = 'ё' || c = 'Ё'

/- ### String helpers -/

def sLower (s : String) : String := ⟨s.data.map pyLowerCh⟩

def sUpperFirst (s : String) : String :=
  match s.data with
  | [] => ""
  | c :: rest => ⟨pyUpperCh c :: rest⟩

/-- Python str.isupper(): at least one cased character and no lowercase cased
character (cased = Latin/Cyrillic letters in our universe). -/
def sIsUpper (s : String) : Bool :=
  (s.data.any fun c => isAsciiUpperCh c || isAsciiLowerCh c || isCyrUpperCh c ||
    isCyrLowerCh c || c = 'ё' || c = 'Ё') &&
  (s.data.all fun c => !(isAsciiLowerCh c || isCyrLowerCh c || c = 'ё'))

/-- Python str.islower(): at least one cased character and no uppercase cased one. -/
def sIsLower (s : String) : Bool :=
  (s.data.any fun c => isAsciiUpperCh c || isAsciiLowerCh c || isCyrUpperCh c ||
    isCyrLowerCh c || c = 'ё' || c = 'Ё') &&
  (s.data.all fun c => !(isAsciiUpperCh c || isCyrUpperCh c || c = 'Ё'))

def stripLeft (p : Char → Bool) (l : List Char) : List Char := l.dropWhile p

def stripBoth (p : Char → Bool) (l : List Char) : List Char :=
  ((l.dropWhile p).reverse.dropWhile p).reverse

/-- Python str.strip() with the default whitespace class. -/
def sStripWs (s : String) : String := ⟨stripBoth isWsCh s.data⟩

/-- Python str.strip(chars): remove the given characters from both ends. -/
def sStripChars (s : String) (chars : List Char) : String :=
  ⟨stripBoth (fun c => chars.contains c) s.data⟩

/-- Auxiliary for collapsing whitespace runs: the boolean records whether the
previous emitted character came from a whitespace run. -/
def collapseWsAux : Bool → List Char → List Char
  | _, [] => []
  | prevWs, c :: rest =>
    if isWsCh c then
      if prevWs then collapseWsAux true rest else ' ' :: collapseWsAux true rest
    else c :: collapseWsAux false rest

/-- Model of re.sub(r"\s+", " ", s): every maximal whitespace run becomes one space. -/
def sCollapseWs (s : String) : String := ⟨collapseWsAux false s.data⟩

def sDropN (s : String) (n : ℕ) : String := ⟨s.data.drop n⟩

def sTakeN (s : String) (n : ℕ) : String := ⟨s.data.take n⟩

def sStartsWith (s pre : String) : Bool := pre.data.isPrefixOf s.data

/-- Auxiliary scan for substring containment. -/
def isSubListOf (needle : List Char) : List Char → Bool
  | [] => needle.isEmpty
  | c :: rest => needle.isPrefixOf (c :: rest) || isSubListOf needle rest

/-- Python substring containment (needle in hay). -/
def containsSub (hay needle : String) : Bool := isSubListOf needle.data hay.data

def joinSep (sep : String) : List String → String
  | [] => ""
  | [x] => x
  | x :: y :: rest => x ++ sep ++ joinSep sep (y :: rest)

def sLen (s : String) : ℕ := s.data.length

/- ### Generic association-list dictionaries (Python dict insertion-order model) -/

def aget? {β : Type} (d : List (String × β)) (k : String) : Option β :=
  (d.find? fun p => p.1 = k).map Prod.snd

def agetD {β : Type} (d : List (String × β)) (k : String) (v : β) : β :=
  (aget? d k).getD v

def ahas {β : Type} (d : List (String × β)) (k : String) : Bool :=
  d.any fun p => p.1 = k

/-- Python dict assignment d[k] = v: replace in place when the key exists
(keeping insertion order), otherwise append at the end. -/
def aset {β : Type} (d : List (String × β)) (k : String) (v : β) : List (String × β) :=
  if ahas d k then d.map (fun p => if p.1 = k then (k, v) else p) else d ++ [(k, v)]

/- ### RateTracker (src/worker/main.py lines 31-45) -/

structure RateTracker where
  window : ℕ
  samples : List (ℤ × ℚ)
deriving DecidableEq

def RateTracker.new (window : ℕ) : RateTracker := ⟨window, []⟩

/-- RateTracker.add: a non-positive duration is ignored; otherwise the sample
is appended to the deque, dropping from the left beyond the window size. -/
def RateTracker.add (t : RateTracker) (count : ℤ) (duration : ℚ) : RateTracker :=
  if duration ≤ 0 then t
  else { t with samples := (t.samples ++ [(count, duration)]).drop
                  ((t.samples.length + 1) - t.window) }

def RateTracker.totalCount (t : RateTracker) : ℤ := (t.samples.map Prod.fst).sum

def RateTracker.totalTime (t : RateTracker) : ℚ := (t.samples.map Prod.snd).sum

/-- RateTracker.rate: undefined (None) while the duration sum is non-positive. -/
def RateTracker.rate (t : RateTracker) : Option ℚ :=
  if t.totalTime ≤ 0 then none else some ((t.totalCount : ℚ) / t.totalTime)

/- ### prepare_text_for_tagging (src/worker/tagging.py lines 499-507) -/

/-- Auxiliary for re.sub(r"\\s+", " ", text): the pattern matches a LITERAL
backslash followed by one or more letters s (the source forgot that inside a
raw string the doubled backslash escapes itself), so only such runs are
replaced by a space. -/
def subBackslashSAux : List Char → List Char
  | [] => []
  | c :: rest =>
    if c = '\\' ∧ rest.head? = some 's' then
      ' ' :: subBackslashSAux (rest.dropWhile fun d => d = 's')
    else c :: subBackslashSAux rest
termination_by l => l.length
decreasing_by
  · simp only [List.length_cons]
    have := (List.dropWhile_suffix (l := rest) (fun d => d = 's')).length_le
    omega
  · simp

def subBackslashS (s : String) : String := ⟨subBackslashSAux s.data⟩

/- ### IEEE-754 binary64 arithmetic, for Python's max_chars * 0.7 -/

/-- Binary length of n (fuel-based structural recursion; fuel ≥ n suffices):
bitlen n = ⌊log2 n⌋ + 1 for n ≥ 1, and 0 for n = 0. -/
def bitlenAux : ℕ → ℕ → ℕ
  | 0, _ => 0
  | f + 1, n => if n ≤ 1 then n else bitlenAux f (n / 2) + 1

def bitlen (n : ℕ) : ℕ := bitlenAux n n

/-- Binade exponent of n/d: the e with 2^52 ≤ (n/d) / 2^e < 2^53. -/
def droundE (n d : ℕ) : ℤ :=
  let e0 : ℤ := (bitlen n : ℤ) - (bitlen d : ℤ) - 53
  if 2 ^ 53 * (d * 2 ^ e0.toNat) ≤ n * 2 ^ (-e0).toNat then e0 + 1 else e0

/-- Scaled 53-bit significand of n/d, rounded to nearest, ties to even. -/
def droundM (n d : ℕ) : ℕ :=
  let e := droundE n d
  let N := n * 2 ^ (-e).toNat
  let D := d * 2 ^ e.toNat
  let q := N / D
  let r := N % D
  if 2 * r < D then q
  else if D < 2 * r then q + 1
  else if q % 2 = 0 then q else q + 1

/-- m * 2^e as a rational. -/
def dval (m : ℕ) (e : ℤ) : ℚ := mkRat (m * 2 ^ e.toNat : ℕ) (2 ^ (-e).toNat)

/-- Round a rational to the nearest IEEE-754 binary64 double (round to
nearest, ties to even), with unbounded exponent range: overflow (reachable
from integers only at 2^1024 and above, where Python float() raises
OverflowError before any string is returned) and subnormal underflow
(unreachable from positive integers and their products with 0.7) are not
modelled. -/
def roundDbl (a : ℚ) : ℚ :=
  if a = 0 then 0
  else
    let v := dval (droundM a.num.natAbs a.den) (droundE a.num.natAbs a.den)
    if a < 0 then -v else v

/-- One IEEE double multiplication: the exact rational product, rounded once
(the product is formed through mkRat so that the kernel can evaluate it). -/
def pyMulDbl (p q : ℚ) : ℚ := roundDbl (mkRat (p.num * q.num) (p.den * q.den))

/-- The double nearest 0.7: 3152519739159347 / 2^52 (0.69999999999999995…). -/
def DBL07 : ℚ := mkRat 6305039478318694 9007199254740992

/-- Python int(n * 0.7) for an int n: n is converted to double, multiplied by
the double 0.7 with one rounding, and truncated toward zero (for n ≥ 0 that
truncation is the floor). -/
def pyInt07 (n : ℤ) : ℤ := (pyMulDbl (roundDbl (n : ℚ)) DBL07).floor

/-- prepare_text_for_tagging: clean the text, return it whole when within the
budget, otherwise keep a head of int(max_chars * 0.7) characters — computed
in IEEE double arithmetic via pyInt07, so e.g. max_chars = 90 gives head 62,
not the exact rational floor 63 — and a tail of the remaining budget around
the marker " ... ". -/
def prepareTextForTagging (text : String) (maxChars : ℤ) : String :=
  if text = "" then ""
  else
    let cleaned := sStripWs (subBackslashS text)
    if maxChars ≤ 0 ∨ (sLen cleaned : ℤ) ≤ maxChars then cleaned
    else
      let head := pyInt07 maxChars
      let tail := maxChars - head
      sTakeN cleaned head.toNat ++ " ... " ++ sDropN cleaned (sLen cleaned - tail.toNat)

/- ### Tag normalization engine (src/worker/tagging.py) -/

/-- DEFAULT_ALIASES (tagging.py lines 7-62), in source order. -/
def DEFAULT_ALIASES : List (String × String) := [
  ("цб", "ЦБ"), ("центральный банк", "ЦБ"), ("central bank", "ЦБ"),
  ("central bank of russia", "ЦБ"), ("бпла", "БПЛА"), ("аси", "АСИ"),
  ("рф", "РФ"), ("урале", "Урал"), ("t-technologies", "Т-Технологии"),
  ("t‑technologies", "Т-Технологии"), ("alfa investments", "Альфа-Инвестиции"),
  ("alfa-investments", "Альфа-Инвестиции"), ("alpha investments", "Альфа-Инвестиции"),
  ("alpha-investments", "Альфа-Инвестиции"), ("alfa investment", "Альфа-Инвестиции"),
  ("alpha investment", "Альфа-Инвестиции"), ("альфа инвестиции", "Альфа-Инвестиции"),
  ("альфаиндекс", "Альфа-Индекс"), ("альфа индекс", "Альфа-Индекс"),
  ("дом.рф", "ДОМ.РФ"), ("valutnye", "Валютные"), ("valyutnye", "Валютные"),
  ("что купить", "Что Купить"), ("чтокупить", "Что Купить"),
  ("сельгдар", "Селигдар"), ("аэрофлота", "Аэрофлот"), ("сербанк", "Сбербанк"),
  ("соединенные штаты", "США"), ("соединённые штаты", "США"), ("сша", "США"),
  ("рынк", "Рынок"), ("рынки", "Рынок"), ("цены", "Цены"),
  ("дефисит", "Дефицит"), ("geopolitica", "Геополитика"), ("мосбиржи", "Мосбиржа"),
  ("озона", "Озон"), ("совкомбанка", "Совкомбанк"), ("полюса", "Полюс"),
  ("дзень", "Дзен"), ("драгметалы", "Драгметаллы"), ("банк россии", "ЦБ"),
  ("икс 5", "ИКС 5"), ("глоракс", "Глоракс"), ("мд медикал груп", "МД Медикал Груп"),
  ("ипо", "IPO"), ("ipo", "IPO"), ("татнефти", "Татнефть"),
  ("ростелекома", "Ростелеком"), ("пика", "ПИК"),
  ("банка санкт-петербург", "Банк Санкт-Петербург"), ("эн+ груп", "ЭН+ Груп"),
  ("минцифра", "Минцифры"), ("keystavka", "Ключевая Ставка")]

/-- The _STOP_TAGS set (tagging.py lines 64-124). -/
def STOP_TAGS : List String := [
  "сфера", "сектор", "услуги", "покупки", "продукции", "активность",
  "крупные", "крупный", "крупная", "крупного", "крупной", "крупным",
  "частный", "частная", "частные", "частного", "частной", "частным",
  "деловая", "деловой", "деловые", "делового",
  "экономическая", "экономический", "экономические", "экономической",
  "экономического", "потребительская", "продовольственная", "логистические",
  "транспортные", "туристическая", "общественный", "общественная",
  "общественные", "будний день", "на", "в", "по", "к", "из", "за", "для",
  "о", "об", "обо", "у", "от", "до", "при", "про", "под", "над", "между",
  "без", "live", "stream", "started", "рост"]

/-- The _GENERIC_TAGS set (tagging.py lines 126-149). -/
def GENERIC_TAGS : List String := [
  "рынок", "продукция", "погода", "интернет", "сад", "ремонт", "аккаунты",
  "поездки", "новости", "экспресс", "подкаст", "компания", "компании",
  "граждане", "бизнес", "операции", "платежи", "бюджет", "цена", "стрим",
  "старт", "вывод"]

/-- The _ADJ_ENDINGS tuple (tagging.py lines 151-168). -/
def ADJ_ENDINGS : List String :=
  ["ая", "яя", "ое", "ее", "ый", "ий", "ые", "ие", "ой", "ого", "его",
   "ему", "ими", "ыми", "ым", "ую"]

/-- The _VERB_ENDINGS tuple (tagging.py lines 170-178). -/
def VERB_ENDINGS : List String := ["лся", "лась", "лись", "лось", "ли", "ло", "ла"]

/-- The _ADJ_KEEP set (tagging.py lines 180-185). -/
def ADJ_KEEP : List String := ["первичный", "вторичный", "валютные", "валютный"]

/-- The _DROP_PREFIXES tuple (tagging.py lines 187-195). -/
def DROP_PFX : List String :=
  ["Рост", "Снижение", "Падение", "Увеличение", "Сокращение", "Уменьшение",
   "Повышение"]

/-- The _CYR_TO_LAT transliteration table (tagging.py lines 235-269);
characters outside the table are kept by str.translate. -/
def cyrToLat (c : Char) : List Char :=
  if c = 'а' then ['a'] else if c = 'б' then ['b'] else if c = 'в' then ['v']
  else if c = 'г' then ['g'] else if c = 'д' then ['d'] else if c = 'е' then ['e']
  else if c = 'ё' then ['e'] else if c = 'ж' then ['z', 'h'] else if c = 'з' then ['z']
  else if c = 'и' then ['i'] else if c = 'й' then ['i'] else if c = 'к' then ['k']
  else if c = 'л' then ['l'] else if c = 'м' then ['m'] else if c = 'н' then ['n']
  else if c = 'о' then ['o'] else if c = 'п' then ['p'] else if c = 'р' then ['r']
  else if c = 'с' then ['s'] else if c = 'т' then ['t'] else if c = 'у' then ['u']
  else if c = 'ф' then ['f'] else if c = 'х' then ['h'] else if c = 'ц' then ['t', 's']
  else if c = 'ч' then ['c', 'h'] else if c = 'ш' then ['s', 'h']
  else if c = 'щ' then ['s', 'h'] else if c = 'ы' then ['y'] else if c = 'э' then ['e']
  else if c = 'ю' then ['y', 'u'] else if c = 'я' then ['y', 'a'] else [c]

/-- The _fold_key helper: lowercase then transliterate Cyrillic to Latin. -/
def foldKey (s : String) : String := ⟨(sLower s).data.flatMap cyrToLat⟩

/-- One add(alias, canonical) call of build_alias_map: strip both, skip when
either is empty, then record the lowercased alias and its folded form. -/
def aliasAdd (m : List (String × String)) (al canonical : String) :
    List (String × String) :=
  let al := sStripWs al
  let canonical := sStripWs canonical
  if al = "" ∨ canonical = "" then m
  else aset (aset m (sLower al) canonical) (foldKey al) canonical

/-- JSON values, used for already-decoded payloads (json.loads output). -/
inductive JVal where
  | null : JVal
  | bool (b : Bool) : JVal
  | num (q : ℚ) : JVal
  | str (s : String) : JVal
  | arr (xs : List JVal) : JVal
  | obj (kvs : List (String × JVal)) : JVal

/-- Decimal rendering of a rational.  Python renders decoded JSON integers
without a decimal point; non-integer numerals are rendered num/den here, an
approximation of Python float repr that no verified claim depends on. -/
def pyStrNum (q : ℚ) : String :=
  if q.den = 1 then toString q.num else toString q.num ++ "/" ++ toString q.den

/-- Python repr() of a decoded JSON value (strings quoted); nested values are
rendered recursively as Python does for lists and dicts. -/
def pyRepr : JVal → String
  | JVal.null => "None"
  | JVal.bool b => if b then "True" else "False"
  | JVal.num q => pyStrNum q
  | JVal.str s => "'" ++ s ++ "'"
  | JVal.arr xs => "[" ++ joinSep ", " (xs.attach.map fun x => pyRepr x.1) ++ "]"
  | JVal.obj kvs =>
    "(dict)" ++ joinSep ", " (kvs.attach.map fun p => "'" ++ p.1.1 ++ "': " ++ pyRepr p.1.2)
decreasing_by
  · have := List.sizeOf_lt_of_mem x.2
    simp only [JVal.arr.sizeOf_spec]
    omega
  · have h1 := List.sizeOf_lt_of_mem p.2
    obtain ⟨⟨k, v⟩, hp⟩ := p
    simp only [Prod.mk.sizeOf_spec] at h1
    simp only [JVal.obj.sizeOf_spec]
    omega

/-- Python str() of a decoded JSON value. -/
def pyStr : JVal → String
  | JVal.str s => s
  | v => pyRepr v

/-- Python truthiness of a decoded JSON value. -/
def jTruthy : JVal → Bool
  | JVal.null => false
  | JVal.bool b => b
  | JVal.num q => q ≠ 0
  | JVal.str s => s ≠ ""
  | JVal.arr xs => !xs.isEmpty
  | JVal.obj kvs => !kvs.isEmpty

/-- One override entry applied by build_alias_map on a dict-shaped payload. -/
def aliasOverrideEntry (m : List (String × String)) (key : String) (v : JVal) :
    List (String × String) :=
  match v with
  | JVal.arr items =>
    items.foldl (fun m it => match it with
      | JVal.str s => aliasAdd m s key
      | _ => m) m
  | JVal.str s => aliasAdd m key s
  | _ => m

/-- build_alias_map (tagging.py lines 277-314).  The argument is the parsed
override payload (json.loads of the raw override string); `none` covers both
the absent and the undecodable override, которые are no-ops in the source. -/
def buildAliasMap (data : Option JVal) : List (String × String) :=
  let m := DEFAULT_ALIASES.foldl (fun m p => aliasAdd m p.1 p.2) []
  match data with
  | some (JVal.obj kvs) => kvs.foldl (fun m p => aliasOverrideEntry m p.1 p.2) m
  | some (JVal.arr items) =>
    items.foldl (fun m it => match it with
      | JVal.obj kvs =>
        let al := sStripWs (pyStr ((aget? kvs "alias").getD (JVal.str "")))
        let canonical :=
          sStripWs (pyStr ((aget? kvs "canonical").getD (JVal.str "")))
        if al ≠ "" ∧ canonical ≠ "" then aliasAdd m al canonical else m
      | _ => m) m
  | _ => m

/-- Character class of the tag gate regex [A-Za-zА-Яа-я0-9 ./&()+-]
(tagging.py line 386).  Note that the Cyrillic ranges exclude Ё/ё. -/
def isAllowedTagCh (c : Char) : Bool :=
  isAsciiUpperCh c || isAsciiLowerCh c || isCyrUpperCh c || isCyrLowerCh c ||
    isDigitCh c || c = ' ' || c = '.' || c = '/' || c = '&' || c = '(' ||
    c = ')' || c = '+' || c = '-'

/-- re.fullmatch(r"[A-Za-zА-Яа-я0-9 ./&()+-]+", tag): non-empty and all
characters in the allowed class. -/
def matchesTagClass (s : String) : Bool := !s.data.isEmpty && s.data.all isAllowedTagCh

/-- Character class [A-ZА-Я0-9./&-] (uppercase identifier characters). -/
def isUpperIdentCh (c : Char) : Bool :=
  isAsciiUpperCh c || isCyrUpperCh c || isDigitCh c || c = '.' || c = '/' ||
    c = '&' || c = '-'

/-- re.fullmatch(r"[A-ZА-Я0-9./&-]+", tag). -/
def matchesUpperIdent (s : String) : Bool := !s.data.isEmpty && s.data.all isUpperIdentCh

/-- Character class [A-Z0-9./&-] (Latin identifier characters). -/
def isLatinIdentCh (c : Char) : Bool :=
  isAsciiUpperCh c || isDigitCh c || c = '.' || c = '/' || c = '&' || c = '-'

/-- re.fullmatch(r"[A-Z0-9./&-]+", tag). -/
def matchesLatinIdent (s : String) : Bool := !s.data.isEmpty && s.data.all isLatinIdentCh

/-- Character class [А-Я0-9./&-] (Cyrillic identifier characters). -/
def isCyrIdentCh (c : Char) : Bool :=
  isCyrUpperCh c || isDigitCh c || c = '.' || c = '/' || c = '&' || c = '-'

/-- re.fullmatch(r"[А-Я0-9./&-]+", tag). -/
def matchesCyrIdent (s : String) : Bool := !s.data.isEmpty && s.data.all isCyrIdentCh

/-- re.fullmatch(r"[0-9]+([.,][0-9]+)?", tag): a pure number with an optional
decimal separator. -/
def matchesPureNumber (s : String) : Bool :=
  let l := s.data
  let intPart := l.takeWhile isDigitCh
  let rest := l.drop intPart.length
  !intPart.isEmpty &&
    (rest.isEmpty ||
      (match rest with
       | c :: ds => (c = '.' || c = ',') && !ds.isEmpty && ds.all isDigitCh
       | [] => true))

/-- re.fullmatch(r"[A-ZА-Я]{2,}\\s?[0-9]+", tag): inside the raw string the
doubled backslash denotes a LITERAL backslash, so the pattern is two or more
uppercase letters, a mandatory backslash, an optional letter s, then digits
(dead code in practice, embedded faithfully). -/
def matchesUpperBsNum (s : String) : Bool :=
  let l := s.data
  let ups := l.takeWhile fun c => isAsciiUpperCh c || isCyrUpperCh c
  let rest := l.drop ups.length
  decide (2 ≤ ups.length) &&
    (match rest with
     | '\\' :: r =>
       let r := match r with
         | 's' :: r2 => r2
         | _ => r
       !r.isEmpty && r.all isDigitCh
     | _ => false)

/-- re.search(r"\d", tag). -/
def hasDigit (s : String) : Bool := s.data.any isDigitCh

/-- re.search(r"[A-Za-z]", tag). -/
def hasLatinLetter (s : String) : Bool :=
  s.data.any fun c => isAsciiUpperCh c || isAsciiLowerCh c

/-- The _title_case helper (tagging.py lines 317-334). -/
def splitCh (sep : Char) (l : List Char) : List (List Char) :=
  l.foldr (fun c acc =>
    match acc with
    | [] => [[c]]
    | cur :: rest => if c = sep then [] :: cur :: rest else (c :: cur) :: rest) [[]]

def titleCase (text : String) : String :=
  let parts := (splitCh ' ' text.data).filterMap fun tok =>
    if tok.isEmpty then none
    else if sIsUpper ⟨tok⟩ then some (⟨tok⟩ : String)
    else
      let subs := (splitCh '-' tok).filterMap fun sub =>
        if sub.isEmpty then none
        else if sIsUpper ⟨sub⟩ then some (⟨sub⟩ : String)
        else some (sUpperFirst ⟨sub⟩)
      some (joinSep "-" subs)
  joinSep " " parts

/-- The _is_single_word helper. -/
def isSingleWord (tag : String) : Bool :=
  !(tag.data.contains ' ') && !(tag.data.contains '-')

/-- The _is_stop_tag helper (tagging.py lines 341-355). -/
def isStopTag (tag : String) : Bool :=
  let lowered := sLower tag
  if STOP_TAGS.contains lowered then true
  else if !isSingleWord tag then false
  else if ADJ_KEEP.contains lowered then false
  else if "ся".data.isSuffixOf lowered.data then true
  else if VERB_ENDINGS.any fun e => e.data.isSuffixOf lowered.data then true
  else if ADJ_ENDINGS.any fun e => e.data.isSuffixOf lowered.data then true
  else false

/-- Characters stripped at step tag.strip(" \t\r\n\"'`()[]{}<>"). -/
def tagStripChars : List Char :=
  [' ', '\t', '\r', '\n', '"', '\'', '`', '(', ')', '[', ']',
   '{', '}', '<', '>']

/-- The optional morphological reducer: `some f` models an available
pymorphy analyzer whose first parse of the lowered tag has the (truthy)
normal form `f`, `none` models an absent analyzer / empty parse / falsy lemma. -/
def MorphModel : Type := Option (String → Option String)

/-- Tail of normalize_tag after the prefix-dropping loop
(tagging.py lines 386-428). -/
def normalizeTagRest (morph : MorphModel) (tag : String)
    (aliasMap : List (String × String)) : Option String :=
  if !matchesTagClass tag then none
  else
    match aget? aliasMap (sLower tag) with
    | some c => some c
    | none =>
    match aget? aliasMap (foldKey tag) with
    | some c => some c
    | none =>
      if hasDigit tag ∧ !matchesUpperIdent tag ∧ !matchesUpperBsNum tag then none
      else if matchesPureNumber tag then none
      else if hasLatinLetter tag then
        if matchesLatinIdent tag then some tag else none
      else if matchesLatinIdent tag ∨ matchesCyrIdent tag then some tag
      else
        let tag :=
          match morph with
          | none => tag
          | some f =>
            if isSingleWord tag ∧ sIsUpper (sTakeN tag 1) ∧ sIsLower (sDropN tag 1)
            then
              match f (sLower tag) with
              | some lemma0 => if lemma0 ≠ sLower tag then titleCase lemma0 else tag
              | none => tag
            else tag
        if isStopTag tag then none else some (titleCase tag)

/-- normalize_tag (tagging.py lines 358-428). -/
def normalizeTag (morph : MorphModel) (rawTag : String)
    (aliasMap : List (String × String)) : Option String :=
  let tag := sStripWs rawTag
  if tag = "" then none
  else if sLen tag ≤ 2 ∧ !sIsUpper tag then none
  else
    let tag := if sStartsWith tag "#" then sStripWs (sDropN tag 1) else tag
    if tag = "" then none
    else
      let tag := ⟨tag.data.map fun c =>
        if c = '‑' ∨ c = '–' ∨ c = '—' then '-' else c⟩
      let tag := sStripChars tag tagStripChars
      let tag := sCollapseWs tag
      let lowered := sLower tag
      match DROP_PFX.find? (fun p => sStartsWith lowered (sLower p ++ " ")) with
      | some p =>
        let tag2 := sStripWs (sDropN tag (sLen p + 1))
        if tag2 = "" then none else normalizeTagRest morph (titleCase tag2) aliasMap
      | none => normalizeTagRest morph tag aliasMap

/-- The fixed compound merges of _merge_compounds (tagging.py lines 446-451). -/
def MERGES : List (String × String × String) :=
  [("Валютные", "Бумаги", "Валютные Бумаги"),
   ("Первичный", "Рынок", "Первичный Рынок"),
   ("Вторичный", "Рынок", "Вторичный Рынок")]

/-- The _merge_compounds helper (tagging.py lines 446-469); the Python set is
modelled by a duplicate-free list, of which only membership is observed. -/
def mergeCompounds (tags : List String) : List String :=
  let tagSet := tags.foldl (fun s t => if t ∈ s then s else s ++ [t]) []
  let tagSet := MERGES.foldl (fun s m =>
    if m.1 ∈ s ∧ m.2.1 ∈ s then
      (s.filter fun t => t ≠ m.1 ∧ t ≠ m.2.1) ++ [m.2.2]
    else s) tagSet
  let merged := tags.foldl (fun acc t =>
    if t ∈ tagSet ∧ t ∉ acc then acc ++ [t] else acc) []
  MERGES.foldl (fun acc m =>
    if m.2.2 ∈ tagSet ∧ m.2.2 ∉ acc then acc ++ [m.2.2] else acc) merged

/-- The _filter_generic helper (tagging.py lines 472-478). -/
def filterGeneric (tags : List String) : List String :=
  if tags.length ≤ 6 then tags
  else
    let filtered := tags.filter fun t => !GENERIC_TAGS.contains (sLower t)
    if 3 ≤ filtered.length then filtered else tags

/-- normalize_tags (tagging.py lines 431-443).  The `seen` set coincides with
membership in the accumulated result. -/
def normalizeTags (morph : MorphModel) (rawTags : List String)
    (aliasMap : List (String × String)) : List String :=
  let base := rawTags.foldl (fun acc raw =>
    if raw = "" then acc
    else
      match normalizeTag morph raw aliasMap with
      | none => acc
      | some t => if t = "" then acc else if t ∈ acc then acc else acc ++ [t]) []
  filterGeneric (mergeCompounds base)

/- ### Numeric conversion helpers (Python float() on decoded values) -/

/-- Helper reading decimal digits: value accumulated so far, count, rest. -/
def readDigits : List Char → ℕ → ℕ → ℕ × ℕ × List Char
  | c :: rest, acc, n =>
    if isDigitCh c then readDigits rest (acc * 10 + (c.toNat - 48)) (n + 1)
    else (acc, n, c :: rest)
  | [], acc, n => (acc, n, [])

/-- Model of Python float(string) on finite decimal literals: optional
surrounding whitespace and sign, digits with an optional fraction and an
optional decimal exponent; anything else raises ValueError (none). -/
def strToRat? (s : String) : Option ℚ :=
  let l := stripBoth isWsCh s.data
  let (sign, l) := match l with
    | '-' :: r => ((-1 : ℚ), r)
    | '+' :: r => ((1 : ℚ), r)
    | r => ((1 : ℚ), r)
  let (ip, ipn, l) := readDigits l 0 0
  let (fp, fpn, l) := match l with
    | '.' :: r => readDigits r 0 0
    | r => (0, 0, r)
  if ipn + fpn = 0 then none
  else
    let mantissa : ℚ := (ip : ℚ) + (fp : ℚ) / ((10 : ℚ) ^ fpn)
    match l with
    | [] => some (sign * mantissa)
    | e :: r =>
      if e = 'e' ∨ e = 'E' then
        let (esign, r) := match r with
          | '-' :: r2 => ((-1 : ℤ), r2)
          | '+' :: r2 => ((1 : ℤ), r2)
          | r2 => ((1 : ℤ), r2)
        let (ev, evn, r) := readDigits r 0 0
        if evn = 0 ∨ !r.isEmpty then none
        else some (sign * mantissa * (10 : ℚ) ^ (esign * ev))
      else none

/-- Model of Python float(x) on a decoded JSON value; bool is an int subclass
(float(True) = 1.0), null/list/dict raise TypeError. -/
def pyFloat? : JVal → Option ℚ
  | JVal.num q => some q
  | JVal.bool b => some (if b then 1 else 0)
  | JVal.str s => strToRat? s
  | _ => none

/- ### Code vectors (src/worker/ollama_client.py) -/

/-- The fixed key list of _normalize_code (ollama_client.py lines 78-91). -/
def CODE_KEYS : List String :=
  ["sentiment", "urgency", "market", "macro", "geopolitics", "company",
   "commodities", "fx", "rates", "crypto", "usefulness", "ad"]

/-- The _clamp helper. -/
def clampQ (v lo hi : ℚ) : ℚ := max lo (min hi v)

/-- The _normalize_code function (ollama_client.py lines 77-103): the result
dict is built iterating the fixed keys in order; a missing or unconvertible
value becomes 0.0; sentiment is clamped to [-1,1], the rest to [0,1]. -/
def normalizeCode (payload : List (String × JVal)) : List (String × ℚ) :=
  CODE_KEYS.map fun k =>
    let v := (((aget? payload k).bind pyFloat?).getD 0)
    (k, if k = "sentiment" then clampQ v (-1) 1 else clampQ v 0 1)

def MAX_EMOJI : ℕ := 10

/-- One iteration of the _merge_code loop (ollama_client.py lines 111-116). -/
def mergeStep (merged : List (String × ℚ)) (kv : String × ℚ) :
    List (String × ℚ) :=
  if kv.1 = "sentiment" then
    if |agetD merged kv.1 0| < |kv.2| then aset merged kv.1 kv.2 else merged
  else aset merged kv.1 (max (agetD merged kv.1 0) kv.2)

/-- The _merge_code function (ollama_client.py lines 109-117). -/
def mergeCode (base fallback : List (String × ℚ)) : List (String × ℚ) :=
  fallback.foldl mergeStep base

/- ### Word-boundary matchers (Python re semantics for the emoji fallback)

A pattern of shape \b K \b (wordExact) or \b K \w* \b (wordPref) matches a
value iff K occurs at a position where the preceding character's wordness
differs from that of K's first character, and symmetrically after: for
wordExact the character after K must differ in wordness from K's last
character; for \w* \b the greedy word run after K always reaches a boundary
when K ends in a word character, and otherwise requires the next character to
be a word character. -/

def optIsWord : Option Char → Bool
  | some c => isWordCh c
  | none => false

def boundaryBetween (a b : Option Char) : Bool := optIsWord a != optIsWord b

/-- Does \b K (\w*)? \b match at this position (prev = preceding character)? -/
def wordMatchAt (allowSuffix : Bool) (prev : Option Char) (key rest : List Char) :
    Bool :=
  key.isPrefixOf rest && boundaryBetween prev key.head? &&
    (let after := (rest.drop key.length).head?
     match key.getLast? with
     | none => true
     | some lc =>
       if allowSuffix then isWordCh lc || optIsWord after
       else boundaryBetween (some lc) after)

def wordSearchAux (allowSuffix : Bool) (key : List Char) :
    Option Char → List Char → Bool
  | prev, [] => wordMatchAt allowSuffix prev key []
  | prev, c :: rest =>
    wordMatchAt allowSuffix prev key (c :: rest) ||
      wordSearchAux allowSuffix key (some c) rest

/-- re.search of \b key \w* \b in value (the short-key pattern of match_key). -/
def wordPrefSearch (value key : String) : Bool :=
  wordSearchAux true key.data none value.data

/-- re.search of \b key \b in value. -/
def wordExactSearch (value key : String) : Bool :=
  wordSearchAux false key.data none value.data

/-- The two regex shapes occurring in FLAG_PATTERNS. -/
inductive FlagPat where
  | wordExact (k : String) : FlagPat
  | wordPref (k : String) : FlagPat

def patSearch (value : String) : FlagPat → Bool
  | FlagPat.wordExact k => wordExactSearch value k
  | FlagPat.wordPref k => wordPrefSearch value k

/-- FLAG_PATTERNS (ollama_client.py lines 119-160): \bX\w*\b becomes
wordPref X, \bX\b becomes wordExact X, in source order. -/
def FLAG_PATTERNS : List (String × List FlagPat) := [
  ("🇷🇺", [FlagPat.wordPref "росси", FlagPat.wordExact "рф"]),
  ("🇺🇸", [FlagPat.wordExact "сша", FlagPat.wordExact "usa",
          FlagPat.wordExact "united states", FlagPat.wordPref "америк"]),
  ("🇨🇳", [FlagPat.wordPref "китай", FlagPat.wordExact "кнр",
          FlagPat.wordExact "china"]),
  ("🇪🇺", [FlagPat.wordExact "евросоюз", FlagPat.wordExact "европа",
          FlagPat.wordExact "eu", FlagPat.wordExact "eurozone"]),
  ("🇬🇧", [FlagPat.wordPref "великобрит", FlagPat.wordPref "британ",
          FlagPat.wordExact "uk", FlagPat.wordPref "англи"]),
  ("🇩🇪", [FlagPat.wordPref "герман", FlagPat.wordPref "немец",
          FlagPat.wordPref "deutsch"]),
  ("🇫🇷", [FlagPat.wordPref "франц", FlagPat.wordExact "france"]),
  ("🇮🇹", [FlagPat.wordPref "итал", FlagPat.wordExact "italy"]),
  ("🇯🇵", [FlagPat.wordPref "япон", FlagPat.wordExact "japan"]),
  ("🇰🇷", [FlagPat.wordPref "коре", FlagPat.wordExact "korea"]),
  ("🇮🇳", [FlagPat.wordExact "индия", FlagPat.wordPref "индийск",
          FlagPat.wordExact "india"]),
  ("🇧🇷", [FlagPat.wordPref "бразил", FlagPat.wordExact "brazil"]),
  ("🇹🇷", [FlagPat.wordPref "турц", FlagPat.wordExact "turkey"]),
  ("🇺🇦", [FlagPat.wordPref "украин", FlagPat.wordExact "ukraine"]),
  ("🇨🇦", [FlagPat.wordExact "канада", FlagPat.wordExact "canada"]),
  ("🇦🇺", [FlagPat.wordPref "австрал", FlagPat.wordExact "australia"]),
  ("🇸🇦", [FlagPat.wordPref "сауд", FlagPat.wordExact "ksa",
          FlagPat.wordExact "saudi"]),
  ("🇦🇪", [FlagPat.wordExact "оаэ", FlagPat.wordPref "эмират",
          FlagPat.wordExact "uae"]),
  ("🇮🇱", [FlagPat.wordPref "израил", FlagPat.wordExact "israel"]),
  ("🇮🇷", [FlagPat.wordExact "иран", FlagPat.wordExact "iran"]),
  ("🇮🇶", [FlagPat.wordExact "ирак", FlagPat.wordExact "iraq"]),
  ("🇪🇬", [FlagPat.wordPref "египт", FlagPat.wordExact "egypt"]),
  ("🇵🇱", [FlagPat.wordPref "польш", FlagPat.wordExact "poland"]),
  ("🇨🇿", [FlagPat.wordPref "чех", FlagPat.wordExact "czech"]),
  ("🇳🇱", [FlagPat.wordPref "нидерланд", FlagPat.wordPref "голланд",
          FlagPat.wordExact "netherlands"]),
  ("🇧🇪", [FlagPat.wordPref "бельг", FlagPat.wordExact "belgium"]),
  ("🇪🇸", [FlagPat.wordPref "испан", FlagPat.wordExact "spain"]),
  ("🇵🇹", [FlagPat.wordPref "португал", FlagPat.wordExact "portugal"]),
  ("🇸🇪", [FlagPat.wordPref "швец", FlagPat.wordExact "sweden"]),
  ("🇳🇴", [FlagPat.wordPref "норвег", FlagPat.wordExact "norway"]),
  ("🇫🇮", [FlagPat.wordPref "финлянд", FlagPat.wordExact "finland"]),
  ("🇩🇰", [FlagPat.wordPref "дани", FlagPat.wordPref "датск",
          FlagPat.wordExact "denmark"]),
  ("🇨🇭", [FlagPat.wordPref "швейцар", FlagPat.wordExact "switzerland"]),
  ("🇦🇹", [FlagPat.wordPref "австр", FlagPat.wordExact "austria"]),
  ("🇲🇽", [FlagPat.wordPref "мексик", FlagPat.wordExact "mexico"]),
  ("🇦🇷", [FlagPat.wordPref "аргентин", FlagPat.wordExact "argentina"]),
  ("🇨🇱", [FlagPat.wordExact "чили", FlagPat.wordExact "chile"]),
  ("🇨🇴", [FlagPat.wordPref "колумб", FlagPat.wordExact "colombia"]),
  ("🇰🇿", [FlagPat.wordPref "казах", FlagPat.wordExact "kazakhstan"]),
  ("🇧🇾", [FlagPat.wordPref "беларус", FlagPat.wordExact "рб",
          FlagPat.wordExact "belarus"])]

/-- ALLOWED_EMOJI (ollama_client.py lines 162-255), in source order. -/
def ALLOWED_EMOJI : List String := [
  "⚠️", "🔥", "📉", "📈", "💰", "🪙", "💱", "🛢️", "🏦", "🏭", "🧾", "📰",
  "🧠", "🌍", "🛡️", "🧪", "🚀", "🎯", "✅", "❌", "😡", "😢", "😊", "🎉",
  "🥇", "🥈", "🥉", "🪨", "🪵", "🌾", "🌽", "🍬", "🌱", "⛽️", "⚡️", "✈️",
  "🛰️", "🏠", "🐄", "🐟", "📊", "💹", "☢️", "🚢", "💥", "💣", "🎮", "🕹️",
  "🏆", "⚔️", "🇷🇺", "🇺🇸", "🇨🇳", "🇪🇺", "🇬🇧", "🇩🇪", "🇫🇷", "🇮🇹", "🇯🇵",
  "🇰🇷", "🇮🇳", "🇧🇷", "🇹🇷", "🇺🇦", "🇨🇦", "🇦🇺", "🇸🇦", "🇦🇪", "🇮🇱", "🇮🇷",
  "🇮🇶", "🇪🇬", "🇵🇱", "🇨🇿", "🇳🇱", "🇧🇪", "🇪🇸", "🇵🇹", "🇸🇪", "🇳🇴", "🇫🇮",
  "🇩🇰", "🇨🇭", "🇦🇹", "🇲🇽", "🇦🇷", "🇨🇱", "🇨🇴", "🇰🇿", "🇧🇾", "⬆️", "⬇️"]

/-- The local add() closure of _fallback_emoji: append when allow-listed and
not already present. -/
def emojiAdd (r : List String) (e : String) : List String :=
  if e ∈ ALLOWED_EMOJI ∧ e ∉ r then r ++ [e] else r

/-- The match_key closure of _fallback_emoji: keys of length at most 4 use
the word-boundary pattern \b key \w* \b, longer keys plain containment. -/
def matchKey (value key : String) : Bool :=
  if sLen key ≤ 4 then wordPrefSearch value key else containsSub value key

/-- One guarded add() call of _fallback_emoji: `if cond: add(e)`. -/
def addIfE (cond : Prop) [Decidable cond] (e : String) (r : List String) :
    List String :=
  if cond then emojiAdd r e else r

/-- An if/elif pair of guarded add() calls. -/
def addIfE2 (c1 : Prop) [Decidable c1] (e1 : String) (c2 : Prop) [Decidable c2]
    (e2 : String) (r : List String) : List String :=
  if c1 then emojiAdd r e1 else if c2 then emojiAdd r e2 else r

/-- An if/elif/elif triple of guarded add() calls. -/
def addIfE3 (c1 : Prop) [Decidable c1] (e1 : String) (c2 : Prop) [Decidable c2]
    (e2 : String) (c3 : Prop) [Decidable c3] (e3 : String) (r : List String) :
    List String :=
  if c1 then emojiAdd r e1
  else if c2 then emojiAdd r e2
  else if c3 then emojiAdd r e3 else r

/-- The _fallback_emoji function (ollama_client.py lines 258-372), embedded
as the exact sequence of guarded add() calls of the source; each `let r :=`
step mirrors one if/elif statement, in order. -/
def fallbackEmoji (tags : List String) (code : List (String × ℚ))
    (text : Option String) : List String :=
  let tagText := sLower (joinSep " " tags)
  let textL := sLower (text.getD "")
  let hasAnyText := fun (keys : List String) => keys.any fun k => matchKey textL k
  let hasAny := fun (keys : List String) =>
    (keys.any fun k => matchKey textL k) || keys.any fun k => matchKey tagText k
  let r : List String := []
  let r := addIfE (hasAnyText ["танкер", "судно", "корабл", "порт", "мор"]) "🚢" r
  let r := addIfE2 (hasAnyText ["взрыв", "взорвал", "взрыво", "удар",
    "обстрел", "бомб", "взрывчат"]) "💣"
    (hasAnyText ["авар", "катастроф", "пожар"]) "💥" r
  let r := addIfE3 (hasAnyText ["упал", "сниз", "паден", "обвал", "просел"]) "📉"
    (hasAnyText ["вырос", "поднял", "увелич", "прибав", "раст"]) "📈"
    (mkRat 6 10 < agetD code "market" 0)
    (if 0 ≤ agetD code "sentiment" 0 then "📈" else "📉") r
  let r := addIfE (hasAny ["золот", "gold", "золото"]) "🥇" r
  let r := addIfE (hasAny ["серебр", "silver"]) "🥈" r
  let r := addIfE (hasAny ["медь", "copper", "bronze", "бронз"]) "🥉" r
  let r := addIfE (hasAny ["платин", "паллад"]) "🪙" r
  let r := addIfE (hasAny ["нефт", "brent", "urals"]) "🛢️" r
  let r := addIfE (hasAny ["газ", "lng"]) "⛽️" r
  let r := addIfE (hasAny ["уголь", "руда", "желез", "алюмин", "никел",
    "литий", "кобальт", "уран"]) "🪨" r
  let r := addIfE (hasAny ["лес", "древесин", "пиломат", "лесомат"]) "🪵" r
  let r := addIfE (hasAny ["зерн", "пшениц", "ячмен", "овес"]) "🌾" r
  let r := addIfE (hasAny ["кукуруз"]) "🌽" r
  let r := addIfE (hasAny ["сахар"]) "🍬" r
  let r := addIfE (hasAny ["удобр", "агро", "аграр", "посев"]) "🌱" r
  let r := addIfE (hasAny ["мясо", "говя", "скот", "молок"]) "🐄" r
  let r := addIfE (hasAny ["рыб", "seafood"]) "🐟" r
  let r := addIfE (hasAny ["электроэнерг", "мощност", "энергосистем"]) "⚡️" r
  let r := addIfE (hasAny ["авиа", "самолет", "аэропорт"]) "✈️" r
  let r := addIfE (hasAny ["космос", "спутник", "space"]) "🛰️" r
  let r := addIfE (hasAny ["недвиж", "ипотек", "строительств"]) "🏠" r
  let r := addIfE (hasAny ["ядер", "атом", "радиац"]) "☢️" r
  let r := addIfE (hasAny ["рынок", "индекс", "котиров"]) "📊" r
  let r := addIfE (mkRat 7 10 < agetD code "commodities" 0 ∧ "🥇" ∉ r ∧ "🛢️" ∉ r ∧
    "🪨" ∉ r) "🪙" r
  let r := addIfE (hasAny ["dota", "dota 2", "cs2", "cs:go", "counter-strike",
    "киберспорт", "esports", "гейм", "игр", "геймер"]) "🎮" r
  let r := addIfE (hasAny ["турнир", "чемпионат", "лига", "season", "финал",
    "playoff", "плей-офф"]) "🏆" r
  let r := addIfE (hasAny ["матч", "серия", "против", "vs"]) "⚔️" r
  let r := addIfE (hasAny ["приз", "призов", "выиграл", "побед", "$",
    "миллион", "тыс"] ∧ "💰" ∉ r) "💰" r
  let r := FLAG_PATTERNS.foldl (fun r fp =>
    addIfE (fp.2.any fun p => patSearch textL p) fp.1 r) r
  let r := addIfE (containsSub tagText "/" ∨ mkRat 6 10 < agetD code "fx" 0) "💱" r
  let r := addIfE (containsSub tagText "банк" ∨ containsSub tagText "цб" ∨
    mkRat 7 10 < agetD code "rates" 0) "🏦" r
  let r := addIfE (mkRat 6 10 < agetD code "geopolitics" 0 ∧ "🌍" ∉ r) "🌍" r
  let r := addIfE (mkRat 7 10 < agetD code "urgency" 0) "⚠️" r
  let r := addIfE (r = []) "📰" r
  r.take MAX_EMOJI

/-- One guarded dimension update of _fallback_code: `if cond: code[k] = v`. -/
def csetIf (cond : Prop) [Decidable cond] (k : String) (v : ℚ)
    (code : List (String × ℚ)) : List (String × ℚ) :=
  if cond then aset code k v else code

/-- The crypto step of _fallback_code: sets crypto to 0.8 and raises market
to at least 0.6 when a crypto keyword fires. -/
def cryptoStep (cond : Prop) [Decidable cond] (code : List (String × ℚ)) :
    List (String × ℚ) :=
  if cond then
    let c := aset code "crypto" (mkRat 8 10)
    aset c "market" (max (agetD c "market" 0) (mkRat 6 10))
  else code

/-- The _fallback_code function (ollama_client.py lines 375-455); has_any is
plain substring containment here (no word boundaries). -/
def fallbackCode (tags : List String) (text : Option String) :
    List (String × ℚ) :=
  let code : List (String × ℚ) :=
    [("sentiment", 0), ("urgency", 0), ("market", 0), ("macro", 0),
     ("geopolitics", 0), ("company", 0), ("commodities", 0), ("fx", 0),
     ("rates", 0), ("crypto", 0), ("usefulness", 0), ("ad", 0)]
  let tagText := sLower (joinSep " " tags)
  let textL := sLower (text.getD "")
  let hasAny := fun (keys : List String) =>
    (keys.any fun k => containsSub textL k) || keys.any fun k => containsSub tagText k
  let code := csetIf (hasAny ["срочно", "молния", "breaking", "важно",
    "urgent"]) "urgency" (mkRat 8 10) code
  let code := csetIf (hasAny ["рынок", "индекс", "акци", "котиров", "s&p",
    "nasdaq", "dow", "imoex", "ртс"]) "market" (mkRat 7 10) code
  let code := csetIf (hasAny ["инфляц", "ввп", "gdp", "безработ", "экономик",
    "макро"]) "macro" (mkRat 7 10) code
  let code := csetIf (hasAny ["санкц", "переговор", "конфликт", "обострен",
    "украин", "сша", "китай", "ес", "геополит"]) "geopolitics" (mkRat 7 10) code
  let code := csetIf (hasAny ["нефт", "газ", "brent", "urals", "золот",
    "серебр", "металл", "уголь", "руда", "commod"]) "commodities" (mkRat 7 10) code
  let code := csetIf (hasAny ["валют", "usd", "eur", "юань", "курс", "fx"])
    "fx" (mkRat 7 10) code
  let code := csetIf (hasAny ["цб", "ставк", "ключев", "rates"]) "rates" (mkRat 8 10) code
  let code := cryptoStep (hasAny ["btc", "eth", "биткоин", "крипт",
    "blockchain", "crypto"]) code
  let code := csetIf (hasAny ["вырос", "рост", "прибав", "подорож",
    "увелич"]) "sentiment" (mkRat 4 10) code
  let code := csetIf (hasAny ["упал", "сниз", "обвал", "подешев", "просел"])
    "sentiment" (mkRat (-4) 10) code
  let adHit := hasAny ["реклам", "промокод", "скидк", "купон", "подпис",
    "партнер", "спонсор", "купить", "заказать", "акция", "розыгрыш",
    "конкурс", "регистрац", "перейди", "ссылка"]
  let code := csetIf adHit "ad" (mkRat 85 100) code
  let usefulness : ℚ := mkRat 25 100
  let usefulness := if mkRat 7 10 ≤ agetD code "urgency" 0
    then max usefulness (mkRat 6 10) else usefulness
  let usefulness := if hasAny ["впервые", "рекорд", "аномал", "необыч"]
    then max usefulness (mkRat 6 10) else usefulness
  let usefulness := if hasAny ["отчет", "результат", "дивиден", "ipo",
      "ставк", "инфляц"] then max usefulness (mkRat 5 10) else usefulness
  let usefulness := if hasAny ["подкаст", "стрим", "интервью"]
    then min usefulness (mkRat 25 100) else usefulness
  let usefulness := if mkRat 7 10 ≤ agetD code "ad" 0
    then min usefulness (mkRat 15 100) else usefulness
  aset code "usefulness" usefulness

/-- The safe emoji set of ollama generate_tags (ollama_client.py line 544). -/
def SAFE_EMOJI : List String := ["📰", "⚠️", "😡", "😢", "😊", "🎉", "🧠"]

/-- Result triple of the generate_tags contract (meta omitted: it carries
only model identity and timing, no verified claim concerns it). -/
structure TagResult where
  tags : List String
  emoji : List String
  code : List (String × ℚ)
deriving DecidableEq

/-- The parse-failure branch of ollama generate_tags (ollama_client.py lines
515-520): candidate tags are taken verbatim and tags/emoji/code all come via
the fallback heuristic scorer. -/
def ollamaFallbackResult (candidates : List String) (text : String) : TagResult :=
  let codeNorm := normalizeCode []
  let fallbackTags := candidates
  let fb := fallbackCode fallbackTags (some text)
  let codeNorm := mergeCode codeNorm fb
  { tags := fallbackTags
    emoji := fallbackEmoji fallbackTags codeNorm (some text)
    code := codeNorm }

/-- The direct (ollama) generate_tags (ollama_client.py lines 458-558) given
the already-extracted JSON of the model message (`parsed`, the result of
_extract_json over the response content: none on parse failure). The falsy
check `if not parsed` also catches an empty object. -/
def ollamaGenerateTags (parsed : Option (List (String × JVal)))
    (candidates : List String) (text : String) : TagResult :=
  match parsed with
  | none => ollamaFallbackResult candidates text
  | some obj =>
    if obj.isEmpty then ollamaFallbackResult candidates text
    else
      let emojiList := match aget? obj "emoji" with
        | some (JVal.arr items) =>
          let el := items.foldl (fun acc it =>
            match it with
            | JVal.str s =>
              let s := sStripWs s
              if s ∈ ALLOWED_EMOJI ∧ s ∉ acc then acc ++ [s] else acc
            | _ => acc) []
          if MAX_EMOJI < el.length then el.take MAX_EMOJI else el
        | _ => []
      let codeNorm := normalizeCode (match aget? obj "code" with
        | some (JVal.obj kvs) => kvs
        | _ => [])
      let tagsList := match aget? obj "tags" with
        | some (JVal.arr items) => items.map pyStr
        | _ => []
      let fbCode := fallbackCode tagsList (some text)
      let codeNorm := mergeCode codeNorm fbCode
      let fb := fallbackEmoji tagsList codeNorm (some text)
      let emojiList := if emojiList ≠ [] then
          let filtered := emojiList.foldl (fun acc it =>
            if (it ∈ fb ∨ it ∈ SAFE_EMOJI) ∧ it ∉ acc then acc ++ [it] else acc) []
          let filtered := fb.foldl (fun acc it =>
            if it ∉ acc then acc ++ [it] else acc) filtered
          filtered.take MAX_EMOJI
        else fb
      { tags := tagsList, emoji := emojiList, code := codeNorm }

/- ### Backend client and failover (src/worker/llm_backend.py) -/

/-- The _normalize_backend helper (llm_backend.py lines 18-22). -/
def normalizeBackend (value : Option String) : String :=
  let backend := sLower (sStripWs (value.getD ""))
  if backend = "ollama" ∨ backend = "llm_mcp" then backend else "llm_mcp"

/-- One poll of the job-status endpoint as observed by _wait_job_result:
a non-200 HTTP status with its body, an undecodable body, or the decoded
JSON body. -/
inductive PollOutcome where
  | httpError (status : ℕ) (body : String) : PollOutcome
  | badJson : PollOutcome
  | job (v : JVal) : PollOutcome

/-- The status extraction str(job.get("status") or "").lower(). -/
def jobStatusStr (kvs : List (String × JVal)) : String :=
  let v := (aget? kvs "status").getD JVal.null
  sLower (pyStr (if jTruthy v then v else JVal.str ""))

/-- The error extraction job.get("error") or "job failed", formatted by str(). -/
def jobErrText (kvs : List (String × JVal)) : String :=
  let v := (aget? kvs "error").getD JVal.null
  pyStr (if jTruthy v then v else JVal.str "job failed")

/-- Loop body of _wait_job_result (llm_backend.py lines 117-151), with time
made explicit: poll k happens at elapsed 0.5*k seconds (the network calls are
instantaneous in this model, the 0.5s sleep is the only time cost), so the
guard elapsed > timeout first fires at iteration 2*timeout + 1 — which is the
initial fuel.  A decoded body that is not an object raises an uncaught
AttributeError in the source at job.get; it is modelled as that error. -/
def waitJobAux (jobId : String) (timeout : ℤ) (polls : ℕ → PollOutcome) :
    ℕ → ℕ → Except String (List (String × JVal))
  | 0, _ =>
    Except.error ("llm_mcp job timeout id=" ++ jobId ++ " timeout=" ++
      toString timeout ++ "s")
  | fuel + 1, k =>
    match polls k with
    | PollOutcome.httpError st body =>
      Except.error ("llm_mcp job read failed status=" ++ toString st ++
        " body=" ++ sTakeN body 280)
    | PollOutcome.badJson => Except.error "llm_mcp job returned invalid json"
    | PollOutcome.job (JVal.obj kvs) =>
      let status := jobStatusStr kvs
      if status = "done" then
        match aget? kvs "result" with
        | some (JVal.obj res) => Except.ok res
        | _ => Except.error "llm_mcp job done without structured result"
      else if status ∈ ["failed", "error", "cancelled", "canceled"] then
        Except.error ("llm_mcp job " ++ status ++ ": " ++ jobErrText kvs)
      else waitJobAux jobId timeout polls fuel (k + 1)
    | PollOutcome.job _ =>
      Except.error "llm_mcp job body is not an object (AttributeError)"

/-- The _wait_job_result function: the timeout is floored at 3 seconds. -/
def waitJobResult (jobId : String) (timeoutSec : ℤ) (polls : ℕ → PollOutcome) :
    Except String (List (String × JVal)) :=
  let timeout := max 3 timeoutSec
  waitJobAux jobId timeout polls (2 * timeout + 1).toNat 0

/-- The _extract_text_from_result function (llm_backend.py lines 46-74). -/
def extractTextFromResult (result : List (String × JVal)) : String :=
  match aget? result "data" with
  | some (JVal.obj data) =>
    let fromResponse : Option String := match aget? data "response" with
      | some (JVal.str s) => if sStripWs s ≠ "" then some s else none
      | _ => none
    match fromResponse with
    | some s => s
    | none =>
      let fromMessage : Option String := match aget? data "message" with
        | some (JVal.obj msg) =>
          (match aget? msg "content" with
           | some (JVal.str c) => some c
           | _ => none)
        | _ => none
      match fromMessage with
      | some s => s
      | none =>
        match aget? data "choices" with
        | some (JVal.arr (first :: _)) =>
          (match first with
           | JVal.obj f =>
             (match aget? f "message" with
              | some (JVal.obj msg) =>
                (match aget? msg "content" with
                 | some (JVal.str c) => some c
                 | _ => none)
              | _ => none).getD
               (match aget? f "text" with
                | some (JVal.str c) => c
                | _ => "")
           | _ => "")
        | _ => ""
  | _ => ""

/-- list(dict.fromkeys(xs)): first-seen-order deduplication. -/
def dedupKeys (xs : List String) : List String :=
  xs.foldl (fun acc x => if x ∈ acc then acc else acc ++ [x]) []

/-- The llm_mcp success-path post-processing of generate_tags
(llm_backend.py lines 225-244), given the leniently parsed JSON object of the
extracted response text. -/
def processMcpParsed (parsed : List (String × JVal)) (candidates : List String)
    (maxCount : ℕ) : TagResult :=
  let tags := match aget? parsed "tags" with
    | some (JVal.arr items) =>
      (items.filter fun it =>
        match it with
        | JVal.str _ => true
        | JVal.num _ => true
        | JVal.bool _ => true
        | _ => false).map fun it => sStripWs (pyStr it)
    | _ => []
  let tags := tags.filter (· ≠ "")
  let tags := if tags = [] ∧ candidates ≠ []
    then (dedupKeys candidates).take maxCount else tags
  let tags := (dedupKeys tags).take maxCount
  let emoji := match aget? parsed "emoji" with
    | some (JVal.arr items) =>
      items.filterMap fun it =>
        match it with
        | JVal.str s => some (sStripWs s)
        | _ => none
    | _ => []
  let emoji := (emoji.filter (· ≠ "")).take 3
  let code := match aget? parsed "code" with
    | some (JVal.obj kvs) =>
      kvs.foldl (fun c p =>
        match pyFloat? p.2 with
        | some q => aset c p.1 q
        | none => c) []
    | _ => []
  { tags := tags, emoji := emoji, code := code }

/-- Outcome of the backend-client generate_tags, with the backend recorded in
meta and the number of direct (ollama) invocations made explicit. -/
structure GenTagsOut where
  result : TagResult
  backend : String
  ollamaCalls : ℕ
deriving DecidableEq

/-- The backend-client generate_tags (llm_backend.py lines 164-267).  Network
and JSON-decoding boundaries are inputs: `mcpRun` is the outcome of
_run_llm_task (enqueue plus polling), `jsonParse` models the lenient
_extract_json (a wrapper around json.loads), `ollamaParsed` the JSON object
extracted from the direct backend's response content.  On an llm_mcp failure
with the fallback flag off the exception is re-raised unchanged; with it on,
the direct backend is invoked exactly once. -/
def generateTagsB (llmBackend : Option String) (fallbackOllama : Bool)
    (mcpRun : Except String (List (String × JVal)))
    (jsonParse : String → Option (List (String × JVal)))
    (ollamaParsed : Option (List (String × JVal)))
    (candidates : Option (List String)) (maxCount : ℕ) (text : String) :
    Except String GenTagsOut :=
  let backend := normalizeBackend llmBackend
  let cands := (candidates.getD [])
  let direct : GenTagsOut :=
    { result := ollamaGenerateTags ollamaParsed cands text
      backend := "ollama", ollamaCalls := 1 }
  if backend = "llm_mcp" then
    match mcpRun with
    | Except.ok result =>
      let rawText := extractTextFromResult result
      let parsed := (jsonParse rawText).getD []
      Except.ok { result := processMcpParsed parsed cands maxCount
                  backend := "llm_mcp", ollamaCalls := 0 }
    | Except.error e =>
      if !fallbackOllama then Except.error e else Except.ok direct
  else Except.ok direct

/- ### Notification gateway and progress notifier
(src/worker/telegram_gateway.py, src/worker/telegram_notifier.py)

The gateway transports are modelled through explicit availability flags and
call-outcome oracles; actions record which transport was exercised. -/

inductive GAction where
  | send (chatId : ℤ) (text : String) : GAction
  | editMcp (internalId : ℤ) (text : String) : GAction
  | editLegacy (internalId : ℤ) (text : String) : GAction
  | editDirect (messageId : ℤ) (text : String) : GAction
deriving DecidableEq

def GAction.isSend : GAction → Bool
  | GAction.send _ _ => true
  | _ => false

def GAction.isDirect : GAction → Bool
  | GAction.editDirect _ _ => true
  | _ => false

def GAction.isMcpSide : GAction → Bool
  | GAction.editMcp _ _ => true
  | GAction.editLegacy _ _ => true
  | _ => false

/-- Model of Python int(s): optional surrounding whitespace, optional sign,
decimal digits; anything else raises ValueError (none). -/
def pyInt? (s : String) : Option ℤ :=
  let l := stripBoth isWsCh s.data
  let (sign, l) := match l with
    | '-' :: r => ((-1 : ℤ), r)
    | '+' :: r => ((1 : ℤ), r)
    | r => ((1 : ℤ), r)
  let (v, n, rest) := readDigits l 0 0
  if n = 0 ∨ !rest.isEmpty then none else some (sign * v)

/-- handle.split(":", 1)[1]: everything after the first colon. -/
def afterColon (s : String) : String :=
  ⟨(s.data.dropWhile fun c => c ≠ ':').drop 1⟩

/-- Static configuration and call-outcome oracles of a TelegramGateway
edit_text invocation: which transports are constructed, and whether each
_edit_via_api / direct edit call would succeed (false = raises). -/
structure GatewayEnv where
  hasApi : Bool
  hasLegacy : Bool
  fallbackDirect : Bool
  hasDirect : Bool
  mcpEditOk : Bool
  legacyEditOk : Bool
  directEditOk : Bool

/-- The mcp-route phase of edit_text (telegram_gateway.py lines 132-152):
some b means an early return with b, none means fall-through; the action list
records the transport calls attempted. -/
def gatewayMcpPhase (env : GatewayEnv) (handle text : String) :
    Option Bool × List GAction :=
  if sStartsWith handle "mcp:" ∧ env.hasApi then
    match pyInt? (afterColon handle) with
    | none => (none, [])
    | some iid =>
      if env.mcpEditOk then (some true, [GAction.editMcp iid text])
      else if env.hasLegacy then
        if env.legacyEditOk then
          (some true, [GAction.editMcp iid text, GAction.editLegacy iid text])
        else (none, [GAction.editMcp iid text, GAction.editLegacy iid text])
      else (none, [GAction.editMcp iid text])
  else (none, [])

/-- The fall-through tail of edit_text (telegram_gateway.py lines 154-169). -/
def gatewayFallthrough (env : GatewayEnv) (handle text : String)
    (acts : List GAction) : Bool × List GAction :=
  if !env.fallbackDirect then (false, acts)
  else if sStartsWith handle "tg:" ∧ env.hasDirect then
    match pyInt? (afterColon handle) with
    | none => (false, acts)
    | some mid =>
      if env.directEditOk then (true, acts ++ [GAction.editDirect mid text])
      else (false, acts ++ [GAction.editDirect mid text])
  else (false, acts)

/-- TelegramGateway.edit_text (telegram_gateway.py lines 131-169): an
mcp-tagged handle is edited through the mcp api (with one legacy retry on
failure when the legacy client exists and the internal id parsed); on
fall-through, fallback must be enabled and only a tg-tagged handle can reach
the direct bot.  The returned trace records every transport call attempted;
edit_text performs no send whatsoever. -/
def gatewayEditText (env : GatewayEnv) (handle text : String) :
    Bool × List GAction :=
  match gatewayMcpPhase env handle text with
  | (some b, acts) => (b, acts)
  | (none, acts) => gatewayFallthrough env handle text acts

/-- The mutable state of TelegramProgressNotifier (the spinner task is not
modelled; its loop only performs throttled edits on the existing handle). -/
structure NotifierState where
  chatId : ℤ
  messageHandle : Option String
  baseText : String
  disabled : Bool
  lastEditTs : ℚ
  minInterval : ℚ
deriving DecidableEq

def notifierInit (chatId : ℤ) (updateInterval : ℚ) : NotifierState :=
  { chatId := chatId, messageHandle := none, baseText := ""
    disabled := false, lastEditTs := 0, minInterval := updateInterval }

/-- Notifier-level gateway calls: one send_text or one edit_text request on a
stored handle (whose transport routing is gatewayEditText). -/
inductive NAction where
  | sendText (chatId : ℤ) (text : String) : NAction
  | editText (chatId : ℤ) (handle : String) (text : String) : NAction
deriving DecidableEq

def NAction.isSendText : NAction → Bool
  | NAction.sendText _ _ => true
  | _ => false

/-- TelegramProgressNotifier.start (telegram_notifier.py lines 39-50):
sends once; a falsy handle disables the notifier for the process lifetime. -/
def notifierStart (s : NotifierState) (text : String) (now : ℚ)
    (sendRes : Option String) : NotifierState × List NAction :=
  if s.disabled then (s, [])
  else
    let s := { s with baseText := text }
    match sendRes with
    | none => ({ s with disabled := true }, [NAction.sendText s.chatId text])
    | some h =>
      ({ s with messageHandle := some h, lastEditTs := now },
       [NAction.sendText s.chatId text])

/-- TelegramProgressNotifier.update (telegram_notifier.py lines 52-69):
empty lines are dropped, a missing handle delegates to start, otherwise the
existing message is edited in place unless throttled; an edit failure only
skips the timestamp refresh — it never triggers a send. -/
def notifierUpdate (s : NotifierState) (lines : List String) (now : ℚ)
    (sendRes : Option String) (editRes : Bool) : NotifierState × List NAction :=
  if s.disabled then (s, [])
  else
    let text := joinSep "\n" (lines.filter (· ≠ ""))
    let s := { s with baseText := text }
    match s.messageHandle with
    | none => notifierStart s text now sendRes
    | some h =>
      if now - s.lastEditTs < s.minInterval then (s, [])
      else if editRes then
        ({ s with lastEditTs := now }, [NAction.editText s.chatId h text])
      else (s, [NAction.editText s.chatId h text])

/-- One externally observable notifier call together with its oracle inputs:
the wall-clock time and the outcomes the gateway would return. -/
inductive NEvent where
  | start (text : String) (now : ℚ) (sendRes : Option String) : NEvent
  | update (lines : List String) (now : ℚ) (sendRes : Option String)
      (editRes : Bool) : NEvent

def NEvent.isStart : NEvent → Bool
  | NEvent.start _ _ _ => true
  | _ => false

def notifierStep (s : NotifierState) : NEvent → NotifierState × List NAction
  | NEvent.start text now sendRes => notifierStart s text now sendRes
  | NEvent.update lines now sendRes editRes =>
    notifierUpdate s lines now sendRes editRes

/-- Run a sequence of notifier calls, accumulating the gateway-call trace. -/
def notifierRun (s : NotifierState) : List NEvent → NotifierState × List NAction
  | [] => (s, [])
  | e :: rest =>
    let (s1, acts) := notifierStep s e
    let (s2, trace) := notifierRun s1 rest
    (s2, acts ++ trace)

def sendCount (trace : List NAction) : ℕ :=
  (trace.filter NAction.isSendText).length

/- THEOREMS-BELOW -/

/- ### Generic helper lemmas -/

theorem subBackslashSAux_id (l : List Char) (h : '\\' ∉ l) :
    subBackslashSAux l = l := by
  induction l with
  | nil => simp [subBackslashSAux]
  | cons c rest ih =>
    rw [subBackslashSAux]
    have hc : ¬(c = '\\' ∧ rest.head? = some 's') := by
      rintro ⟨rfl, -⟩
      exact h (List.mem_cons_self _ _)
    rw [if_neg hc]
    rw [ih (fun hm => h (List.mem_cons_of_mem _ hm))]

theorem subBackslashS_id (s : String) (h : '\\' ∉ s.data) :
    subBackslashS s = s := by
  unfold subBackslashS
  rw [subBackslashSAux_id _ h]

theorem sLen_append (a b : String) : sLen (a ++ b) = sLen a + sLen b := by
  simp [sLen, String.data_append]

/- ### Claim C7: RateTracker -/

theorem rateTracker_add_zero (t : RateTracker) (c : ℤ) (d : ℚ) (h : d ≤ 0) :
    t.add c d = t := by
  unfold RateTracker.add
  rw [if_pos h]

theorem rateTracker_foldl_zero (l : List (ℤ × ℚ)) (t : RateTracker)
    (h : ∀ p ∈ l, p.2 = 0) :
    l.foldl (fun t p => t.add p.1 p.2) t = t := by
  induction l generalizing t with
  | nil => rfl
  | cons p rest ih =>
    have hp : p.2 = 0 := h p (List.mem_cons_self _ _)
    simp only [List.foldl_cons]
    rw [rateTracker_add_zero t p.1 p.2 (le_of_eq hp),
      ih t (fun q hq => h q (List.mem_cons_of_mem _ hq))]

/-- Claim C7: a RateTracker fed the samples (10,5) and (20,5) reports rate
3.0; an empty tracker, or one offered only zero-duration samples, reports an
undefined rate; in general rate() is the sum of counts divided by the sum of
durations whenever the latter is positive, over a window bounded by the
configured size. -/
theorem c7_rate_tracker :
    ((((RateTracker.new 30).add 10 5).add 20 5).rate = some 3) ∧
    ((RateTracker.new 30).rate = none) ∧
    (∀ l : List (ℤ × ℚ), (∀ p ∈ l, p.2 = 0) →
      (l.foldl (fun t p => t.add p.1 p.2) (RateTracker.new 30)).rate = none) ∧
    (∀ t : RateTracker, 0 < t.totalTime →
      t.rate = some ((t.totalCount : ℚ) / t.totalTime)) ∧
    (∀ (t : RateTracker) (c : ℤ) (d : ℚ), t.samples.length ≤ t.window →
      ((t.add c d).samples.length ≤ t.window)) := by
  refine ⟨by norm_num [RateTracker.new, RateTracker.add, RateTracker.rate,
      RateTracker.totalCount, RateTracker.totalTime],
    by norm_num [RateTracker.new, RateTracker.rate, RateTracker.totalCount,
      RateTracker.totalTime], ?_, ?_, ?_⟩
  · intro l h
    rw [rateTracker_foldl_zero l _ h]
    norm_num [RateTracker.new, RateTracker.rate, RateTracker.totalCount,
      RateTracker.totalTime]
  · intro t h
    unfold RateTracker.rate
    rw [if_neg (not_le.mpr h)]
  · intro t c d h
    unfold RateTracker.add
    split
    · exact h
    · simp only [List.length_drop, List.length_append, List.length_cons,
        List.length_nil]
      omega

/-- Witness for Claim C7 at concrete inputs. -/
theorem c7_rate_tracker_witness :
    ((([((1 : ℤ), (0 : ℚ))].foldl (fun t p => t.add p.1 p.2)
        (RateTracker.new 30)).rate = none) ∧
     ((RateTracker.new 2).add 1 1).rate = some 1) ∧
    ((RateTracker.new 2).add 1 1).samples.length ≤ 2 :=
  ⟨⟨c7_rate_tracker.2.2.1 [(1, 0)] (by
      intro p hp
      simp only [List.mem_singleton] at hp
      rw [hp]),
    by
      have h := c7_rate_tracker.2.2.2.1 ((RateTracker.new 2).add 1 1)
        (by norm_num [RateTracker.new, RateTracker.add, RateTracker.totalTime])
      rw [h]
      norm_num [RateTracker.new, RateTracker.add, RateTracker.totalTime,
        RateTracker.totalCount]⟩,
   c7_rate_tracker.2.2.2.2 (RateTracker.new 2) 1 1 (by
     norm_num [RateTracker.new])⟩

/- ### Claim C10: prepare_text_for_tagging -/

theorem pyInt07_ninety : pyInt07 90 = 62 := by decide

theorem roundDbl_seven_tenths : roundDbl (mkRat 7 10) = DBL07 := by decide

theorem pyMulDbl_eq (p q : ℚ) : pyMulDbl p q = roundDbl (p * q) := by
  rw [pyMulDbl, Rat.mul_eq_mkRat]

theorem ratFloor_eq_floor (q : ℚ) : q.floor = ⌊q⌋ := by
  rw [Rat.floor_def]
  unfold Rat.floor
  split
  · rename_i h
    rw [h]
    simp
  · rfl

theorem bitlenAux_spec (fuel : ℕ) :
    ∀ n : ℕ, 1 ≤ n → n ≤ fuel →
      2 ^ (bitlenAux fuel n - 1) ≤ n ∧ n < 2 ^ bitlenAux fuel n := by
  induction fuel with
  | zero =>
    intro n h1 h2
    omega
  | succ f ih =>
    intro n h1 h2
    rw [bitlenAux]
    by_cases hn : n ≤ 1
    · have : n = 1 := by omega
      subst this
      rw [if_pos hn]
      norm_num
    · rw [if_neg hn]
      have h12 : 1 ≤ n / 2 := by omega
      have h2f : n / 2 ≤ f := by omega
      obtain ⟨hl, hr⟩ := ih (n / 2) h12 h2f
      have hb1 : 1 ≤ bitlenAux f (n / 2) := by
        rcases Nat.eq_zero_or_pos (bitlenAux f (n / 2)) with hz | hp
        · rw [hz] at hr
          norm_num at hr
          omega
        · exact hp
      set b := bitlenAux f (n / 2) with hbdef
      have hp1 : 2 ^ b = 2 ^ (b - 1) * 2 := by
        rw [← pow_succ]
        congr 1
        omega
      have hp2 : 2 ^ (b + 1) = 2 ^ b * 2 := by
        rw [← pow_succ]
      constructor
      · show 2 ^ (b + 1 - 1) ≤ n
        have : b + 1 - 1 = b := by omega
        rw [this, hp1]
        omega
      · show n < 2 ^ (b + 1)
        rw [hp2]
        omega

theorem bitlen_spec (n : ℕ) (h : 1 ≤ n) :
    2 ^ (bitlen n - 1) ≤ n ∧ n < 2 ^ bitlen n :=
  bitlenAux_spec n n h (le_refl n)

theorem bitlen_pos (n : ℕ) (h : 1 ≤ n) : 1 ≤ bitlen n := by
  rcases Nat.eq_zero_or_pos (bitlen n) with hz | hp
  · have := (bitlen_spec n h).2
    rw [hz] at this
    norm_num at this
    omega
  · exact hp

/-- The chosen exponent scales n/d to at least 2^52. -/
theorem droundE_scale (n d : ℕ) (hn : 1 ≤ n) (hd : 1 ≤ d) :
    2 ^ 52 * (d * 2 ^ (droundE n d).toNat) ≤ n * 2 ^ (-(droundE n d)).toNat := by
  unfold droundE
  dsimp only
  set e0 : ℤ := (bitlen n : ℤ) - (bitlen d : ℤ) - 53 with he0
  by_cases hadj : 2 ^ 53 * (d * 2 ^ e0.toNat) ≤ n * 2 ^ (-e0).toNat
  · rw [if_pos hadj]
    by_cases hs : 0 ≤ e0
    · have h1 : (e0 + 1).toNat = e0.toNat + 1 := by omega
      have h2 : (-(e0 + 1)).toNat = 0 := by omega
      have h3 : (-e0).toNat = 0 := by omega
      rw [h1, h2]
      rw [h3] at hadj
      calc 2 ^ 52 * (d * 2 ^ (e0.toNat + 1)) =
          2 ^ 53 * (d * 2 ^ e0.toNat) := by ring
        _ ≤ n * 2 ^ 0 := hadj
    · push_neg at hs
      have h1 : (e0 + 1).toNat = 0 := by omega
      have h2 : e0.toNat = 0 := by omega
      have h3 : (-e0).toNat = (-(e0 + 1)).toNat + 1 := by omega
      rw [h1]
      rw [h2, h3] at hadj
      have ha2 : n * 2 ^ ((-(e0 + 1)).toNat + 1) = 2 * (n * 2 ^ (-(e0 + 1)).toNat) := by
        ring
      have hb2 : 2 ^ 53 * (d * 2 ^ 0) = 2 * (2 ^ 52 * (d * 2 ^ 0)) := by ring
      rw [ha2, hb2] at hadj
      exact Nat.le_of_mul_le_mul_left hadj (by norm_num)
  · rw [if_neg hadj]
    obtain ⟨hnl, hnr⟩ := bitlen_spec n hn
    obtain ⟨hdl, hdr⟩ := bitlen_spec d hd
    have hbn1 := bitlen_pos n hn
    have hbd1 := bitlen_pos d hd
    set bn := bitlen n
    set bd := bitlen d
    by_cases hs : 0 ≤ e0
    · -- e0 ≥ 0: bn ≥ bd + 53; goal 2^52 * (d * 2^(bn-bd-53)) ≤ n
      have hk : e0.toNat = bn - bd - 53 := by omega
      have hk2 : (-e0).toNat = 0 := by omega
      have hbnbd : bd + 53 ≤ bn := by omega
      rw [hk, hk2]
      have step1 : 2 ^ 52 * (d * 2 ^ (bn - bd - 53)) = d * 2 ^ (52 + (bn - bd - 53)) := by
        rw [pow_add]
        ring
      have step2 : d * 2 ^ (52 + (bn - bd - 53)) ≤ (2 ^ bd - 1) * 2 ^ (52 + (bn - bd - 53)) :=
        Nat.mul_le_mul_right _ (by omega)
      have step3 : 2 ^ bd * 2 ^ (52 + (bn - bd - 53)) = 2 ^ (bn - 1) := by
        rw [← pow_add]
        congr 1
        omega
      have step4 : (2 ^ bd - 1) * 2 ^ (52 + (bn - bd - 53)) ≤ 2 ^ (bn - 1) := by
        rw [Nat.sub_one_mul, step3]
        exact Nat.sub_le _ _
      calc 2 ^ 52 * (d * 2 ^ (bn - bd - 53))
          = d * 2 ^ (52 + (bn - bd - 53)) := step1
        _ ≤ (2 ^ bd - 1) * 2 ^ (52 + (bn - bd - 53)) := step2
        _ ≤ 2 ^ (bn - 1) := step4
        _ ≤ n := hnl
        _ ≤ n * 2 ^ 0 := by norm_num
    · -- e0 < 0: goal 2^52 * d ≤ n * 2^(bd+53-bn)
      push_neg at hs
      have hk : e0.toNat = 0 := by omega
      have hk2 : (-e0).toNat = bd + 53 - bn := by omega
      have hbnbd : bn < bd + 53 := by omega
      rw [hk, hk2]
      have step1 : 2 ^ 52 * (d * 2 ^ 0) ≤ 2 ^ 52 * 2 ^ bd := by
        have : d * 2 ^ 0 ≤ 2 ^ bd := by omega
        exact Nat.mul_le_mul_left _ this
      have step2 : 2 ^ 52 * 2 ^ bd = 2 ^ (bn - 1) * 2 ^ (bd + 53 - bn) := by
        rw [← pow_add, ← pow_add]
        congr 1
        omega
      have step3 : 2 ^ (bn - 1) * 2 ^ (bd + 53 - bn) ≤ n * 2 ^ (bd + 53 - bn) :=
        Nat.mul_le_mul_right _ hnl
      omega

/-- Round-to-nearest never overshoots by more than half an ulp:
2 m D ≤ 2 N + D. -/
theorem droundM_le (n d : ℕ) (hn : 1 ≤ n) (hd : 1 ≤ d) :
    2 * (droundM n d * (d * 2 ^ (droundE n d).toNat)) ≤
      2 * (n * 2 ^ (-(droundE n d)).toNat) + d * 2 ^ (droundE n d).toNat := by
  unfold droundM
  dsimp only
  set N := n * 2 ^ (-(droundE n d)).toNat with hN
  set D := d * 2 ^ (droundE n d).toNat with hD
  have hD0 : 0 < D := by positivity
  have hqr : D * (N / D) + N % D = N := Nat.div_add_mod N D
  have hr : N % D < D := Nat.mod_lt _ hD0
  set q := N / D
  set r := N % D
  set A := D * q with hA
  by_cases h1 : 2 * r < D
  · rw [if_pos h1]
    have : q * D = A := by rw [hA]; ring
    omega
  · rw [if_neg h1]
    by_cases h2 : D < 2 * r
    · rw [if_pos h2]
      have : (q + 1) * D = A + D := by rw [hA]; ring
      omega
    · rw [if_neg h2]
      by_cases h3 : q % 2 = 0
      · rw [if_pos h3]
        have : q * D = A := by rw [hA]; ring
        omega
      · rw [if_neg h3]
        have : (q + 1) * D = A + D := by rw [hA]; ring
        omega

/-- The rounded significand is at least 2^52 (in particular positive). -/
theorem droundM_pos (n d : ℕ) (hn : 1 ≤ n) (hd : 1 ≤ d) :
    1 ≤ droundM n d := by
  unfold droundM
  dsimp only
  set N := n * 2 ^ (-(droundE n d)).toNat with hN
  set D := d * 2 ^ (droundE n d).toNat with hD
  have hD0 : 0 < D := by positivity
  have hDN : D ≤ N := by
    have := droundE_scale n d hn hd
    have hD1 : D ≤ 2 ^ 52 * D := by omega
    omega
  have hq : 1 ≤ N / D := (Nat.one_le_div_iff hD0).mpr hDN
  by_cases h1 : 2 * (N % D) < D
  · rw [if_pos h1]
    exact hq
  · rw [if_neg h1]
    by_cases h2 : D < 2 * (N % D)
    · rw [if_pos h2]
      omega
    · rw [if_neg h2]
      by_cases h3 : N / D % 2 = 0
      · rw [if_pos h3]
        exact hq
      · rw [if_neg h3]
        omega

theorem dval_pos (m : ℕ) (e : ℤ) (hm : 1 ≤ m) : 0 < dval m e := by
  rw [dval, Rat.mkRat_eq_div]
  apply div_pos
  · exact_mod_cast Nat.mul_pos hm (pow_pos (by norm_num : (0 : ℕ) < 2) _)
  · exact_mod_cast pow_pos (by norm_num : (0 : ℕ) < 2) ((-e).toNat)

theorem dval_le (n d : ℕ) (hn : 1 ≤ n) (hd : 1 ≤ d) :
    dval (droundM n d) (droundE n d) ≤
      (n : ℚ) / (d : ℚ) + (n : ℚ) / (d : ℚ) * mkRat 1 9007199254740992 := by
  set m := droundM n d with hm
  set e := droundE n d with he
  set β := e.toNat with hβ
  set α := (-e).toNat with hα
  have key : m * 2 ^ β * (d * 9007199254740992) ≤
      n * (9007199254740992 + 1) * 2 ^ α := by
    have hA := droundE_scale n d hn hd
    have hB := droundM_le n d hn hd
    rw [← he, ← hβ, ← hα] at hA hB
    have e52 : (2 : ℕ) ^ 52 = 4503599627370496 := by norm_num
    rw [e52] at hA
    set X := m * (d * 2 ^ β) with hX
    set Y := n * 2 ^ α with hY
    set Z := d * 2 ^ β with hZ
    have lhs_eq : m * 2 ^ β * (d * 9007199254740992) = 9007199254740992 * X := by
      rw [hX, hZ]
      ring
    have rhs_eq : n * (9007199254740992 + 1) * 2 ^ α =
        9007199254740992 * Y + Y := by
      rw [hY]
      ring
    rw [lhs_eq, rhs_eq]
    omega
  have hdpos : (0 : ℚ) < (d : ℚ) := by exact_mod_cast hd
  have hrhs : (n : ℚ) / (d : ℚ) + (n : ℚ) / (d : ℚ) * mkRat 1 9007199254740992 =
      ((n * (9007199254740992 + 1) : ℕ) : ℚ) / ((d * 9007199254740992 : ℕ) : ℚ) := by
    rw [Rat.mkRat_eq_div]
    have hd' : (d : ℚ) ≠ 0 := hdpos.ne'
    push_cast
    field_simp
    ring
  rw [dval, Rat.mkRat_eq_div, hrhs, ← hβ, ← hα]
  rw [div_le_div_iff (by positivity) (by positivity)]
  exact_mod_cast key

theorem roundDbl_pos (a : ℚ) (ha : 0 < a) : 0 < roundDbl a := by
  unfold roundDbl
  rw [if_neg (ne_of_gt ha)]
  dsimp only
  rw [if_neg (not_lt.mpr (le_of_lt ha))]
  apply dval_pos
  apply droundM_pos
  · have : 0 < a.num := Rat.num_pos.mpr ha
    omega
  · exact a.pos

theorem roundDbl_le (a : ℚ) (ha : 0 < a) :
    roundDbl a ≤ a + a * mkRat 1 9007199254740992 := by
  have hnum : (0 : ℤ) < a.num := Rat.num_pos.mpr ha
  have hn : 1 ≤ a.num.natAbs := by omega
  have hd : 1 ≤ a.den := a.pos
  have hrepr : ((a.num.natAbs : ℕ) : ℚ) / ((a.den : ℕ) : ℚ) = a := by
    have h1 : ((a.num.natAbs : ℕ) : ℚ) = ((a.num : ℤ) : ℚ) := by
      rw [Int.cast_natAbs]
      exact_mod_cast abs_of_pos hnum
    rw [h1, Rat.num_div_den]
  calc roundDbl a
      = dval (droundM a.num.natAbs a.den) (droundE a.num.natAbs a.den) := by
        unfold roundDbl
        rw [if_neg (ne_of_gt ha)]
        dsimp only
        rw [if_neg (not_lt.mpr (le_of_lt ha))]
    _ ≤ (a.num.natAbs : ℚ) / (a.den : ℚ) +
        (a.num.natAbs : ℚ) / (a.den : ℚ) * mkRat 1 9007199254740992 :=
        dval_le _ _ hn hd
    _ = a + a * mkRat 1 9007199254740992 := by rw [hrepr]

theorem pyInt07_bounds (n : ℤ) (hn : 0 < n) : 0 ≤ pyInt07 n ∧ pyInt07 n < n := by
  have hcast : (0 : ℚ) < (n : ℚ) := by exact_mod_cast hn
  set u : ℚ := mkRat 1 9007199254740992 with hu
  have h1p := roundDbl_pos (n : ℚ) hcast
  have h1le := roundDbl_le (n : ℚ) hcast
  have hD07pos : (0 : ℚ) < DBL07 := by
    rw [DBL07, Rat.mkRat_eq_div]
    norm_num
  have hprodpos : 0 < roundDbl (n : ℚ) * DBL07 := mul_pos h1p hD07pos
  have h2p := roundDbl_pos _ hprodpos
  have h2le := roundDbl_le _ hprodpos
  have honeu : (0 : ℚ) < 1 + u := by
    rw [hu, Rat.mkRat_eq_div]
    norm_num
  have hnum : ((1 : ℚ) + u) * DBL07 * (1 + u) < 1 := by
    rw [hu, DBL07, Rat.mkRat_eq_div, Rat.mkRat_eq_div]
    norm_num
  have hchain : roundDbl (roundDbl (n : ℚ) * DBL07) < (n : ℚ) := by
    have step1 : roundDbl (n : ℚ) ≤ (n : ℚ) * (1 + u) := by
      rw [mul_add, mul_one]
      exact h1le
    have step2 : roundDbl (n : ℚ) * DBL07 ≤ (n : ℚ) * (1 + u) * DBL07 :=
      mul_le_mul_of_nonneg_right step1 (le_of_lt hD07pos)
    have step3 : roundDbl (roundDbl (n : ℚ) * DBL07) ≤
        roundDbl (n : ℚ) * DBL07 * (1 + u) := by
      rw [mul_add, mul_one]
      exact h2le
    calc roundDbl (roundDbl (n : ℚ) * DBL07)
        ≤ roundDbl (n : ℚ) * DBL07 * (1 + u) := step3
      _ ≤ (n : ℚ) * (1 + u) * DBL07 * (1 + u) :=
          mul_le_mul_of_nonneg_right step2 (le_of_lt honeu)
      _ = (n : ℚ) * ((1 + u) * DBL07 * (1 + u)) := by ring
      _ < (n : ℚ) * 1 := by
          exact mul_lt_mul_of_pos_left hnum hcast
      _ = (n : ℚ) := mul_one _
  rw [pyInt07, pyMulDbl_eq, ratFloor_eq_floor]
  constructor
  · exact Int.floor_nonneg.mpr (le_of_lt h2p)
  · exact Int.floor_lt.mpr hchain


/-- Claim C10: on backslash-free text with a positive budget the function
returns text.strip() unchanged (whitespace runs are NOT collapsed, because
the substitution pattern is the literal sequence backslash-s) when the
stripped length fits the budget; otherwise it returns the first
int(max_chars * 0.7) characters — the truncated IEEE double product, pyInt07
— the marker " ... ", and the last max_chars - int(max_chars * 0.7)
characters: a string of exactly max_chars + 5 characters. -/
theorem c10_prepare_text (text : String) (maxChars : ℤ)
    (hb : '\\' ∉ text.data) (hpos : 0 < maxChars) :
    (((sLen (sStripWs text) : ℤ) ≤ maxChars →
      prepareTextForTagging text maxChars = sStripWs text)) ∧
    (maxChars < (sLen (sStripWs text) : ℤ) →
      prepareTextForTagging text maxChars =
        sTakeN (sStripWs text) (pyInt07 maxChars).toNat ++ " ... " ++
          sDropN (sStripWs text)
            (sLen (sStripWs text) - (maxChars - pyInt07 maxChars).toNat) ∧
      (sLen (prepareTextForTagging text maxChars) : ℤ) = maxChars + 5) := by
  constructor
  · intro hle
    unfold prepareTextForTagging
    split
    · rename_i hempty
      rw [hempty]
      rfl
    · rw [subBackslashS_id text hb, if_pos (Or.inr hle)]
  · intro hgt
    have htext : ¬(text = "") := by
      rintro rfl
      simp [sStripWs, stripBoth, sLen] at hgt
      omega
    have hsplit : prepareTextForTagging text maxChars =
        sTakeN (sStripWs text) (pyInt07 maxChars).toNat ++ " ... " ++
          sDropN (sStripWs text)
            (sLen (sStripWs text) - (maxChars - pyInt07 maxChars).toNat) := by
      unfold prepareTextForTagging
      rw [if_neg htext, subBackslashS_id text hb,
        if_neg (by push_neg; exact ⟨hpos, hgt⟩)]
    refine ⟨hsplit, ?_⟩
    rw [hsplit]
    obtain ⟨hhead0, hheadlt⟩ := pyInt07_bounds maxChars hpos
    have htail : 1 ≤ maxChars - pyInt07 maxChars := by omega
    have hL : maxChars < (sLen (sStripWs text) : ℤ) := hgt
    rw [sLen_append, sLen_append]
    have h5 : sLen " ... " = 5 := by decide
    rw [h5]
    simp only [sTakeN, sDropN, sLen, List.length_take, List.length_drop] at hL ⊢
    omega

/- ### Claim C4: concrete normalize_tags run with the default alias map -/

set_option maxRecDepth 10000 in
/-- Claim C4: with the built-in alias table and no override,
normalize_tags(["#Рост Озона", "БПЛА", "12345"]) is exactly ["Озон", "БПЛА"]:
the hash and descriptive prefix are stripped and the remainder
alias-canonicalized, БПЛА maps to itself, the numeric token is rejected. -/
theorem c4_default_alias_run :
    normalizeTags none ["#Рост Озона", "БПЛА", "12345"] (buildAliasMap none) =
      ["Озон", "БПЛА"] := by
  decide

/- ### Claim C3: normalize_tags output shape -/

theorem foldl_nodup_of_step {α β : Type} (g : List α → β → List α)
    (hg : ∀ acc b, g acc b = acc ∨ ∃ x, x ∉ acc ∧ g acc b = acc ++ [x]) :
    ∀ (l : List β) (acc : List α), acc.Nodup → (l.foldl g acc).Nodup := by
  intro l
  induction l with
  | nil => intro acc h; exact h
  | cons b rest ih =>
    intro acc h
    simp only [List.foldl_cons]
    rcases hg acc b with heq | ⟨x, hx, heq⟩
    · rw [heq]; exact ih acc h
    · rw [heq]
      refine ih _ ?_
      rw [← List.concat_eq_append]
      exact List.Nodup.concat hx h

theorem foldl_mem_of_step {α β : Type} (g : List α → β → List α)
    (l : List β) (P : α → Prop)
    (hg : ∀ acc b, b ∈ l → ∀ x, x ∈ g acc b → x ∈ acc ∨ P x) :
    ∀ (acc : List α) (x : α), x ∈ l.foldl g acc → x ∈ acc ∨ P x := by
  induction l with
  | nil => intro acc x h; exact Or.inl h
  | cons b rest ih =>
    intro acc x h
    simp only [List.foldl_cons] at h
    rcases ih (fun acc2 b2 hb2 => hg acc2 b2 (List.mem_cons_of_mem _ hb2)) _ x h
      with hmem | hP
    · exact hg acc b (List.mem_cons_self _ _) x hmem
    · exact Or.inr hP

theorem aget?_mem {β : Type} {d : List (String × β)} {k : String} {v : β}
    (h : aget? d k = some v) : ∃ p ∈ d, p.1 = k ∧ p.2 = v := by
  unfold aget? at h
  rcases Option.map_eq_some'.mp h with ⟨p, hp, hv⟩
  refine ⟨p, List.mem_of_find?_eq_some hp, ?_, hv⟩
  have := List.find?_some hp
  exact of_decide_eq_true this

/-- Characters stay in the allowed tag class under the Python upper-case map. -/
theorem pyUpperCh_allowed (c : Char) (h : isAllowedTagCh c = true) :
    isAllowedTagCh (pyUpperCh c) = true := by
  unfold pyUpperCh
  split
  · rename_i h2
    rcases Bool.or_eq_true _ _ |>.mp h2 with hl | hc
    · obtain ⟨hlo, hhi⟩ := Bool.and_eq_true _ _ |>.mp hl
      have hlo2 : 97 ≤ c.toNat := of_decide_eq_true hlo
      have hhi2 : c.toNat ≤ 122 := of_decide_eq_true hhi
      have hm : 65 ≤ c.toNat - 32 ∧ c.toNat - 32 ≤ 90 := by omega
      set m := c.toNat - 32 with hmdef
      obtain ⟨hm1, hm2⟩ := hm
      interval_cases m <;> decide
    · obtain ⟨hlo, hhi⟩ := Bool.and_eq_true _ _ |>.mp hc
      have hlo2 : 1072 ≤ c.toNat := of_decide_eq_true hlo
      have hhi2 : c.toNat ≤ 1103 := of_decide_eq_true hhi
      have hm : 1040 ≤ c.toNat - 32 ∧ c.toNat - 32 ≤ 1071 := by omega
      set m := c.toNat - 32 with hmdef
      obtain ⟨hm1, hm2⟩ := hm
      interval_cases m <;> decide
  · split
    · rename_i hyo
      rw [hyo] at h
      exact absurd h (by decide)
    · exact h

theorem joinSep_chars (sep : String) (l : List String) (c : Char)
    (h : c ∈ (joinSep sep l).data) : c ∈ sep.data ∨ ∃ s ∈ l, c ∈ s.data := by
  induction l with
  | nil => simp [joinSep] at h
  | cons x rest ih =>
    cases rest with
    | nil =>
      simp only [joinSep] at h
      exact Or.inr ⟨x, List.mem_cons_self _ _, h⟩
    | cons y rest2 =>
      simp only [joinSep, String.data_append, List.mem_append] at h
      rcases h with (hx | hsep) | hrest
      · exact Or.inr ⟨x, List.mem_cons_self _ _, hx⟩
      · exact Or.inl hsep
      · rcases ih hrest with hs | ⟨s, hs, hc⟩
        · exact Or.inl hs
        · exact Or.inr ⟨s, List.mem_cons_of_mem _ hs, hc⟩

theorem splitCh_chars (sep : Char) (l : List Char) :
    ∀ p ∈ splitCh sep l, ∀ c ∈ p, c ∈ l := by
  induction l with
  | nil =>
    intro p hp c hc
    simp only [splitCh, List.foldr_nil, List.mem_singleton] at hp
    rw [hp] at hc
    simp at hc
  | cons a l ih =>
    intro p hp c hc
    simp only [splitCh, List.foldr_cons] at hp
    rcases hacc : l.foldr (fun c acc =>
      match acc with
      | [] => [[c]]
      | cur :: rest => if c = sep then [] :: cur :: rest else (c :: cur) :: rest)
        [[]] with _ | ⟨cur, rest⟩
    · rw [hacc] at hp
      simp only [List.mem_singleton] at hp
      rw [hp] at hc
      simp only [List.mem_singleton] at hc
      rw [hc]
      exact List.mem_cons_self _ _
    · rw [hacc] at hp
      dsimp only at hp
      by_cases hsep : a = sep
      · rw [if_pos hsep] at hp
        rcases List.mem_cons.mp hp with hempty | hp2
        · rw [hempty] at hc; simp at hc
        · have : p ∈ splitCh sep l := by rw [splitCh, hacc]; exact hp2
          exact List.mem_cons_of_mem _ (ih p this c hc)
      · rw [if_neg hsep] at hp
        rcases List.mem_cons.mp hp with hhead | hp2
        · rw [hhead] at hc
          rcases List.mem_cons.mp hc with rfl | hc2
          · exact List.mem_cons_self _ _
          · have : cur ∈ splitCh sep l := by
              rw [splitCh, hacc]; exact List.mem_cons_self _ _
            exact List.mem_cons_of_mem _ (ih cur this c hc2)
        · have : p ∈ splitCh sep l := by
            rw [splitCh, hacc]; exact List.mem_cons_of_mem _ hp2
          exact List.mem_cons_of_mem _ (ih p this c hc)

theorem sUpperFirst_chars (s : String)
    (h : ∀ c ∈ s.data, isAllowedTagCh c = true) :
    ∀ c ∈ (sUpperFirst s).data, isAllowedTagCh c = true := by
  intro c hc
  unfold sUpperFirst at hc
  rcases hd : s.data with _ | ⟨c0, rest⟩
  · rw [hd] at hc; simp at hc
  · rw [hd] at hc
    simp only [String.data] at hc
    rcases List.mem_cons.mp hc with rfl | hc2
    · exact pyUpperCh_allowed c0 (h c0 (by rw [hd]; exact List.mem_cons_self _ _))
    · exact h c (by rw [hd]; exact List.mem_cons_of_mem _ hc2)

/-- Title-casing keeps every character inside the allowed tag class. -/
theorem titleCase_chars (s : String)
    (h : ∀ c ∈ s.data, isAllowedTagCh c = true) :
    ∀ c ∈ (titleCase s).data, isAllowedTagCh c = true := by
  intro c hc
  unfold titleCase at hc
  rcases joinSep_chars _ _ _ hc with hsp | ⟨part, hpart, hcp⟩
  · simp only [String.data] at hsp
    rcases List.mem_singleton.mp hsp with rfl
    decide
  · rcases List.mem_filterMap.mp hpart with ⟨tok, htok, hval⟩
    have htokchars : ∀ c ∈ tok, isAllowedTagCh c = true :=
      fun c hc => h c (splitCh_chars ' ' s.data tok htok c hc)
    by_cases hemp : tok.isEmpty
    · rw [if_pos hemp] at hval; exact absurd hval (by simp)
    · rw [if_neg hemp] at hval
      by_cases hup : sIsUpper ⟨tok⟩ = true
      · rw [if_pos hup] at hval
        rcases Option.some.injEq _ _ ▸ hval with rfl
        exact htokchars c hcp
      · rw [if_neg hup] at hval
        rcases Option.some.injEq _ _ ▸ hval with rfl
        rcases joinSep_chars _ _ _ hcp with hdash | ⟨sub, hsub, hcs⟩
        · simp only [String.data] at hdash
          rcases List.mem_singleton.mp hdash with rfl
          decide
        · rcases List.mem_filterMap.mp hsub with ⟨piece, hpiece, hpval⟩
          have hpchars : ∀ c ∈ piece, isAllowedTagCh c = true :=
            fun c hc => htokchars c (splitCh_chars '-' tok piece hpiece c hc)
          by_cases hpe : piece.isEmpty
          · rw [if_pos hpe] at hpval; exact absurd hpval (by simp)
          · rw [if_neg hpe] at hpval
            by_cases hpu : sIsUpper ⟨piece⟩ = true
            · rw [if_pos hpu] at hpval
              rcases Option.some.injEq _ _ ▸ hpval with rfl
              exact hpchars c hcs
            · rw [if_neg hpu] at hpval
              rcases Option.some.injEq _ _ ▸ hpval with rfl
              exact sUpperFirst_chars ⟨piece⟩ hpchars c hcs

/-- Tail lemma: with the morphological reducer absent, every tag produced by
normalizeTagRest is an alias-map canonical, or empty, or inside the allowed
character class. -/
theorem titleCase_class_or_empty (tag t : String)
    (hmt : matchesTagClass tag = true) (h : t = titleCase tag) :
    matchesTagClass t = true ∨ t = "" := by
  subst h
  have hchars : ∀ c ∈ tag.data, isAllowedTagCh c = true := by
    intro c hc
    have := (Bool.and_eq_true _ _ |>.mp hmt).2
    exact List.all_eq_true.mp this c hc
  have hall := titleCase_chars tag hchars
  rcases hdata : (titleCase tag).data with _ | ⟨c0, rest⟩
  · right
    exact String.ext (hdata.trans rfl)
  · left
    unfold matchesTagClass
    refine Bool.and_eq_true _ _ |>.mpr ⟨?_, ?_⟩
    · rw [hdata]
      rfl
    · rw [List.all_eq_true]
      exact hall

theorem normTagRest_class (tag : String) (am : List (String × String))
    (halias : ∀ p ∈ am, matchesTagClass p.2 = true) (t : String)
    (h : normalizeTagRest none tag am = some t) :
    matchesTagClass t = true ∨ t = "" := by
  unfold normalizeTagRest at h
  split at h
  · exact absurd h (by simp)
  rename_i hmt0
  have hmt : matchesTagClass tag = true := by
    simpa using hmt0
  split at h
  · rename_i c ha1
    obtain rfl := Option.some.inj h
    obtain ⟨p, hp, -, hv⟩ := aget?_mem ha1
    exact Or.inl (hv ▸ halias p hp)
  split at h
  · rename_i c ha2
    obtain rfl := Option.some.inj h
    obtain ⟨p, hp, -, hv⟩ := aget?_mem ha2
    exact Or.inl (hv ▸ halias p hp)
  split at h
  · exact absurd h (by simp)
  split at h
  · exact absurd h (by simp)
  split at h
  · split at h
    · obtain rfl := Option.some.inj h
      exact Or.inl hmt
    · exact absurd h (by simp)
  split at h
  · obtain rfl := Option.some.inj h
    exact Or.inl hmt
  dsimp only at h
  split at h
  · exact absurd h (by simp)
  obtain rfl := Option.some.inj h
  exact titleCase_class_or_empty tag _ hmt rfl

/-- Every tag produced by normalize_tag (with the reducer absent and an
alias map whose canonicals are in class) is in class or empty. -/
theorem normalizeTag_class (raw : String) (am : List (String × String))
    (halias : ∀ p ∈ am, matchesTagClass p.2 = true) (t : String)
    (h : normalizeTag none raw am = some t) :
    matchesTagClass t = true ∨ t = "" := by
  unfold normalizeTag at h
  dsimp only at h
  split at h
  · exact absurd h (by simp)
  split at h
  · exact absurd h (by simp)
  split at h
  · -- leading '#': the re-stripped remainder has its own emptiness check
    split at h
    · exact absurd h (by simp)
    split at h
    · split at h
      · exact absurd h (by simp)
      · exact normTagRest_class _ am halias t h
    · exact normTagRest_class _ am halias t h
  · -- no '#': the repeated emptiness check was discharged by the first split
    split at h
    · split at h
      · exact absurd h (by simp)
      · exact normTagRest_class _ am halias t h
    · exact normTagRest_class _ am halias t h

/-- The tag accumulator of normalize_tags only ever appends fresh elements. -/
theorem tagStep_shape (morph : MorphModel) (am : List (String × String))
    (acc : List String) (raw : String) :
    (if raw = "" then acc
     else match normalizeTag morph raw am with
       | none => acc
       | some t => if t = "" then acc else if t ∈ acc then acc else acc ++ [t]) =
        acc ∨
    ∃ x, x ∉ acc ∧
      (if raw = "" then acc
       else match normalizeTag morph raw am with
         | none => acc
         | some t => if t = "" then acc else if t ∈ acc then acc else acc ++ [t]) =
          acc ++ [x] := by
  by_cases h0 : raw = ""
  · rw [if_pos h0]; exact Or.inl rfl
  · rw [if_neg h0]
    rcases hnt : normalizeTag morph raw am with _ | t
    · exact Or.inl rfl
    · dsimp only
      by_cases h1 : t = ""
      · rw [if_pos h1]; exact Or.inl rfl
      · rw [if_neg h1]
        by_cases h2 : t ∈ acc
        · rw [if_pos h2]; exact Or.inl rfl
        · rw [if_neg h2]; exact Or.inr ⟨t, h2, rfl⟩

theorem mergeCompounds_nodup (tags : List String) :
    (mergeCompounds tags).Nodup := by
  unfold mergeCompounds
  apply foldl_nodup_of_step
  · intro acc m
    by_cases hc : m.2.2 ∈ MERGES.foldl (fun s m =>
        if m.1 ∈ s ∧ m.2.1 ∈ s then
          (s.filter fun t => t ≠ m.1 ∧ t ≠ m.2.1) ++ [m.2.2]
        else s) (tags.foldl (fun s t => if t ∈ s then s else s ++ [t]) []) ∧
        m.2.2 ∉ acc
    · rw [if_pos hc]; exact Or.inr ⟨m.2.2, hc.2, rfl⟩
    · rw [if_neg hc]; exact Or.inl rfl
  · apply foldl_nodup_of_step
    · intro acc t
      by_cases hc : t ∈ MERGES.foldl (fun s m =>
          if m.1 ∈ s ∧ m.2.1 ∈ s then
            (s.filter fun x => x ≠ m.1 ∧ x ≠ m.2.1) ++ [m.2.2]
          else s) (tags.foldl (fun s x => if x ∈ s then s else s ++ [x]) []) ∧
          t ∉ acc
      · rw [if_pos hc]; exact Or.inr ⟨t, hc.2, rfl⟩
      · rw [if_neg hc]; exact Or.inl rfl
    · exact List.nodup_nil

theorem mergeCompounds_mem (tags : List String) (x : String)
    (h : x ∈ mergeCompounds tags) :
    x ∈ tags ∨ x ∈ MERGES.map fun m => m.2.2 := by
  unfold mergeCompounds at h
  have h1 := foldl_mem_of_step _ MERGES (fun x => x ∈ MERGES.map fun m => m.2.2)
    (fun acc m hm x hx => by
      split at hx
      · rcases List.mem_append.mp hx with hin | hone
        · exact Or.inl hin
        · rcases List.mem_singleton.mp hone with rfl
          exact Or.inr (List.mem_map_of_mem _ hm)
      · exact Or.inl hx) _ x h
  rcases h1 with h1 | h1
  · have h2 := foldl_mem_of_step _ tags (fun x => x ∈ tags)
      (fun acc t ht x hx => by
        split at hx
        · rcases List.mem_append.mp hx with hin | hone
          · exact Or.inl hin
          · rcases List.mem_singleton.mp hone with rfl
            exact Or.inr ht
        · exact Or.inl hx) _ x h1
    rcases h2 with h2 | h2
    · simp at h2
    · exact Or.inl h2
  · exact Or.inr h1

theorem filterGeneric_mem (tags : List String) (x : String)
    (h : x ∈ filterGeneric tags) : x ∈ tags := by
  unfold filterGeneric at h
  split at h
  · exact h
  · dsimp only at h
    split at h
    · exact (List.mem_filter.mp h).1
    · exact h

theorem filterGeneric_nodup (tags : List String) (h : tags.Nodup) :
    (filterGeneric tags).Nodup := by
  unfold filterGeneric
  split
  · exact h
  · dsimp only
    split
    · exact List.Nodup.filter _ h
    · exact h

/-- Claim C3 (amended): for every raw tag list, every alias map and any
morphological-reducer state, normalize_tags output has no duplicates; and
when the alias map's canonical values all lie in the allowed character class
and the optional morphological reducer is absent, every output tag matches
the allowed character class (Latin or Cyrillic letters, digits, space and
./&()+-). -/
theorem c3_normalize_tags_shape (rawTags : List String)
    (am : List (String × String)) (morph : MorphModel) :
    (normalizeTags morph rawTags am).Nodup ∧
    ((∀ p ∈ am, matchesTagClass p.2 = true) → morph = none →
      ∀ t ∈ normalizeTags morph rawTags am, matchesTagClass t = true) := by
  constructor
  · unfold normalizeTags
    apply filterGeneric_nodup
    apply mergeCompounds_nodup
  · intro halias hmorph t ht
    unfold normalizeTags at ht
    have h1 := filterGeneric_mem _ _ ht
    rcases mergeCompounds_mem _ _ h1 with h2 | h2
    · have h3 := foldl_mem_of_step
        (fun (acc : List String) (raw : String) =>
          if raw = "" then acc
          else match normalizeTag morph raw am with
            | none => acc
            | some t => if t = "" then acc
                else if t ∈ acc then acc else acc ++ [t])
        rawTags (fun t => matchesTagClass t = true)
        (fun acc raw _ x hx => by
          dsimp only at hx
          by_cases h0 : raw = ""
          · rw [if_pos h0] at hx; exact Or.inl hx
          · rw [if_neg h0] at hx
            rcases hnt : normalizeTag morph raw am with _ | u
            · rw [hnt] at hx; exact Or.inl hx
            · rw [hnt] at hx
              dsimp only at hx
              by_cases h1 : u = ""
              · rw [if_pos h1] at hx; exact Or.inl hx
              · rw [if_neg h1] at hx
                by_cases h2 : u ∈ acc
                · rw [if_pos h2] at hx; exact Or.inl hx
                · rw [if_neg h2] at hx
                  rcases List.mem_append.mp hx with hin | hone
                  · exact Or.inl hin
                  · have hxu := List.mem_singleton.mp hone
                    rw [hmorph] at hnt
                    rcases normalizeTag_class raw am halias u hnt with hcl | hemp
                    · exact Or.inr (hxu ▸ hcl)
                    · exact absurd hemp h1) [] t h2
      rcases h3 with h3 | h3
      · simp at h3
      · exact h3
    · simp only [MERGES, List.map_cons, List.map_nil, List.mem_cons,
        List.not_mem_nil, or_false] at h2
      rcases h2 with rfl | rfl | rfl <;> decide

set_option maxRecDepth 10000 in
/-- Witness for Claim C3 at concrete inputs. -/
theorem c3_normalize_tags_shape_witness :
    (normalizeTags none ["ЦБ", "цб"] DEFAULT_ALIASES).Nodup ∧
    matchesTagClass "ЦБ" = true :=
  ⟨(c3_normalize_tags_shape ["ЦБ", "цб"] DEFAULT_ALIASES none).1,
   (c3_normalize_tags_shape ["ЦБ", "цб"] DEFAULT_ALIASES none).2
     (by decide) rfl "ЦБ" (by decide)⟩

/-- Counterexample for Claim C3 as stated: with an alias map whose canonical
value lies outside the allowed character class, normalize_tags emits that
value verbatim, so the universally quantified claim over every alias map is
false. -/
theorem c3_counterexample :
    normalizeTags none ["abc"] [("abc", "!!!")] = ["!!!"] ∧
    matchesTagClass "!!!" = false := by
  constructor
  · decide
  · decide

/- ### Claim C8: emoji fallback invariants -/

/-- Invariant carried through every add() call of _fallback_emoji. -/
def EmojiInv (r : List String) : Prop :=
  r.Nodup ∧ ∀ e ∈ r, e ∈ ALLOWED_EMOJI

theorem emojiInv_nil : EmojiInv [] := ⟨List.nodup_nil, by simp⟩

theorem emojiAdd_inv (r : List String) (e : String) (h : EmojiInv r) :
    EmojiInv (emojiAdd r e) := by
  unfold emojiAdd
  split
  · rename_i hc
    constructor
    · rw [← List.concat_eq_append]
      exact h.1.concat hc.2
    · intro x hx
      rcases List.mem_append.mp hx with hin | hone
      · exact h.2 x hin
      · rcases List.mem_singleton.mp hone with rfl
        exact hc.1
  · exact h

theorem addIfE_inv (c : Prop) [Decidable c] (e : String) (r : List String)
    (h : EmojiInv r) : EmojiInv (addIfE c e r) := by
  unfold addIfE
  split
  · exact emojiAdd_inv r e h
  · exact h

theorem addIfE2_inv (c1 : Prop) [Decidable c1] (e1 : String) (c2 : Prop)
    [Decidable c2] (e2 : String) (r : List String) (h : EmojiInv r) :
    EmojiInv (addIfE2 c1 e1 c2 e2 r) := by
  unfold addIfE2
  split
  · exact emojiAdd_inv r e1 h
  split
  · exact emojiAdd_inv r e2 h
  · exact h

theorem addIfE3_inv (c1 : Prop) [Decidable c1] (e1 : String) (c2 : Prop)
    [Decidable c2] (e2 : String) (c3 : Prop) [Decidable c3] (e3 : String)
    (r : List String) (h : EmojiInv r) : EmojiInv (addIfE3 c1 e1 c2 e2 c3 e3 r) := by
  unfold addIfE3
  split
  · exact emojiAdd_inv r e1 h
  split
  · exact emojiAdd_inv r e2 h
  split
  · exact emojiAdd_inv r e3 h
  · exact h

theorem foldl_flags_inv (g : String × List FlagPat → Bool)
    (l : List (String × List FlagPat)) :
    ∀ r : List String, EmojiInv r →
      EmojiInv (l.foldl (fun r fp => addIfE (g fp) fp.1 r) r) := by
  induction l with
  | nil => intro r h; exact h
  | cons fp rest ih =>
    intro r h
    simp only [List.foldl_cons]
    exact ih _ (addIfE_inv _ fp.1 r h)

theorem addIfE_news_ne (r : List String) : addIfE (r = []) "📰" r ≠ [] := by
  unfold addIfE
  split
  · rename_i hr
    rw [hr]
    decide
  · assumption

theorem take_emojiInv (n : ℕ) (r : List String) (h : EmojiInv r) :
    EmojiInv (r.take n) :=
  ⟨h.1.sublist (List.take_sublist n r),
   fun e he => h.2 e (List.take_subset n r he)⟩

theorem take_ne_of_ne (n : ℕ) (hn : n ≠ 0) (r : List String) (h : r ≠ []) :
    r.take n ≠ [] := by
  cases r with
  | nil => exact absurd rfl h
  | cons x rest =>
    cases n with
    | zero => exact absurd rfl hn
    | succ m => simp

/-- Master invariant of _fallback_emoji: the output is a non-empty,
duplicate-free, allow-listed emoji list of at most 10 entries, for every
input. -/
theorem fallbackEmoji_spec (tags : List String) (code : List (String × ℚ))
    (text : Option String) :
    EmojiInv (fallbackEmoji tags code text) ∧
    fallbackEmoji tags code text ≠ [] ∧
    (fallbackEmoji tags code text).length ≤ MAX_EMOJI := by
  unfold fallbackEmoji
  dsimp only
  refine ⟨?_, ?_, ?_⟩
  · apply take_emojiInv
    repeat
      first
      | exact emojiInv_nil
      | apply foldl_flags_inv
      | apply addIfE_inv
      | apply addIfE2_inv
      | apply addIfE3_inv
  · apply take_ne_of_ne _ (by decide)
    apply addIfE_news_ne
  · exact List.length_take_le _ _

/-- Claim C8: for every input, _fallback_emoji returns a non-empty list (the
default news marker fires when no matcher does), with no duplicates, at most
10 entries, all members of the fixed allow-list. -/
theorem c8_fallback_emoji (tags : List String) (code : List (String × ℚ))
    (text : Option String) :
    fallbackEmoji tags code text ≠ [] ∧
    (fallbackEmoji tags code text).Nodup ∧
    (fallbackEmoji tags code text).length ≤ 10 ∧
    ∀ e ∈ fallbackEmoji tags code text, e ∈ ALLOWED_EMOJI :=
  ⟨(fallbackEmoji_spec tags code text).2.1,
   (fallbackEmoji_spec tags code text).1.1,
   (fallbackEmoji_spec tags code text).2.2,
   (fallbackEmoji_spec tags code text).1.2⟩

/-- Witness for Claim C8 at concrete inputs. -/
theorem c8_fallback_emoji_witness :
    fallbackEmoji [] [] none ≠ [] ∧ (fallbackEmoji [] [] none).length ≤ 10 :=
  ⟨(c8_fallback_emoji [] [] none).1,
   (c8_fallback_emoji [] [] none).2.2.1⟩

/- ### Dictionary lemmas for the code vectors -/

theorem ahas_iff {β : Type} (d : List (String × β)) (k : String) :
    ahas d k = true ↔ k ∈ d.map Prod.fst := by
  unfold ahas
  rw [List.any_eq_true]
  constructor
  · rintro ⟨p, hp, hpk⟩
    exact List.mem_map.mpr ⟨p, hp, of_decide_eq_true hpk⟩
  · intro h
    rcases List.mem_map.mp h with ⟨p, hp, hpk⟩
    exact ⟨p, hp, decide_eq_true hpk⟩

theorem aget?_cons {β : Type} (x : String × β) (l : List (String × β))
    (q : String) :
    aget? (x :: l) q = if x.1 = q then some x.2 else aget? l q := by
  unfold aget?
  by_cases h : x.1 = q
  · rw [List.find?_cons_of_pos _ (by simp [h]), if_pos h]
    rfl
  · rw [List.find?_cons_of_neg _ (by simp [h]), if_neg h]

theorem ahas_cons_tail {β : Type} {p : String × β} {rest : List (String × β)}
    {k : String} (h : ahas (p :: rest) k = true) (hp : ¬p.1 = k) :
    ahas rest k = true := by
  simp only [ahas, List.any_cons, Bool.or_eq_true] at h
  rcases h with h | h
  · exact absurd (of_decide_eq_true h) hp
  · exact h

theorem ahas_cons_of_tail {β : Type} {p : String × β} {rest : List (String × β)}
    {k : String} (h : ahas rest k = true) : ahas (p :: rest) k = true := by
  simp only [ahas, List.any_cons, Bool.or_eq_true]
  exact Or.inr h

theorem aget?_of_mem_keys {β : Type} {d : List (String × β)} {k : String}
    (h : k ∈ d.map Prod.fst) : ∃ v, aget? d k = some v := by
  induction d with
  | nil => simp at h
  | cons p rest ih =>
    rw [aget?_cons]
    by_cases hp : p.1 = k
    · rw [if_pos hp]
      exact ⟨p.2, rfl⟩
    · rw [if_neg hp]
      simp only [List.map_cons, List.mem_cons] at h
      rcases h with h | h
      · exact absurd h.symm hp
      · exact ih h

theorem aget?_map_replace_self {β : Type} (l : List (String × β)) (k : String)
    (v : β) (hhas : ahas l k = true) :
    aget? (l.map fun p => if p.1 = k then (k, v) else p) k = some v := by
  induction l with
  | nil => simp [ahas] at hhas
  | cons p rest ih =>
    rw [List.map_cons]
    by_cases hp : p.1 = k
    · rw [if_pos hp, aget?_cons, if_pos rfl]
    · rw [if_neg hp, aget?_cons, if_neg hp]
      exact ih (ahas_cons_tail hhas hp)

theorem aget?_map_replace_other {β : Type} (l : List (String × β)) (k : String)
    (v : β) (q : String) (hq : q ≠ k) :
    aget? (l.map fun p => if p.1 = k then (k, v) else p) q = aget? l q := by
  induction l with
  | nil => rfl
  | cons p rest ih =>
    rw [List.map_cons]
    by_cases hp : p.1 = k
    · rw [if_pos hp, aget?_cons, aget?_cons,
        if_neg (fun h => hq h.symm), if_neg (fun h => hq (hp ▸ h).symm)]
      exact ih
    · rw [if_neg hp, aget?_cons, aget?_cons]
      by_cases hpq : p.1 = q
      · rw [if_pos hpq, if_pos hpq]
      · rw [if_neg hpq, if_neg hpq]
        exact ih

theorem aget?_append_single_self {β : Type} (l : List (String × β)) (k : String)
    (v : β) (hhas : ¬ahas l k = true) : aget? (l ++ [(k, v)]) k = some v := by
  induction l with
  | nil =>
    rw [List.nil_append, aget?_cons, if_pos rfl]
  | cons p rest ih =>
    have hp : ¬p.1 = k := fun hp =>
      hhas (by simp [ahas, List.any_cons, hp])
    rw [List.cons_append, aget?_cons, if_neg hp]
    exact ih (fun h => hhas (ahas_cons_of_tail h))

theorem aget?_append_single_other {β : Type} (l : List (String × β))
    (k : String) (v : β) (q : String) (hq : q ≠ k) :
    aget? (l ++ [(k, v)]) q = aget? l q := by
  induction l with
  | nil =>
    rw [List.nil_append, aget?_cons, if_neg (fun h => hq h.symm)]
  | cons p rest ih =>
    rw [List.cons_append, aget?_cons, aget?_cons]
    by_cases hpq : p.1 = q
    · rw [if_pos hpq, if_pos hpq]
    · rw [if_neg hpq, if_neg hpq]
      exact ih

theorem aget?_aset_self {β : Type} (d : List (String × β)) (k : String) (v : β) :
    aget? (aset d k v) k = some v := by
  unfold aset
  split
  · rename_i hhas
    exact aget?_map_replace_self d k v hhas
  · rename_i hhas
    exact aget?_append_single_self d k v hhas

theorem aget?_aset_other {β : Type} (d : List (String × β)) (k : String) (v : β)
    (q : String) (hq : q ≠ k) : aget? (aset d k v) q = aget? d q := by
  unfold aset
  split
  · exact aget?_map_replace_other d k v q hq
  · exact aget?_append_single_other d k v q hq

theorem aset_keys {β : Type} (d : List (String × β)) (k : String) (v : β)
    (h : ahas d k = true) : (aset d k v).map Prod.fst = d.map Prod.fst := by
  unfold aset
  rw [if_pos h, List.map_map]
  apply List.map_congr_left
  intro p _
  by_cases hp : p.1 = k
  · simp [hp]
  · simp [hp]

theorem mem_aset {β : Type} (d : List (String × β)) (k : String) (v : β)
    (p : String × β) (h : p ∈ aset d k v) : p ∈ d ∨ p = (k, v) := by
  unfold aset at h
  split at h
  · rcases List.mem_map.mp h with ⟨q, hq, hval⟩
    by_cases hqk : q.1 = k
    · rw [if_pos hqk] at hval
      exact Or.inr hval.symm
    · rw [if_neg hqk] at hval
      exact Or.inl (hval ▸ hq)
  · rcases List.mem_append.mp h with hin | hone
    · exact Or.inl hin
    · exact Or.inr (List.mem_singleton.mp hone)

/- ### Claim C2: code vector well-formedness on the direct path -/

/-- Range discipline of one code-vector entry: sentiment lies in [-1,1],
every other dimension in [0,1]. -/
def codeEntryOK (p : String × ℚ) : Prop :=
  (p.1 = "sentiment" → -1 ≤ p.2 ∧ p.2 ≤ 1) ∧
  (p.1 ≠ "sentiment" → 0 ≤ p.2 ∧ p.2 ≤ 1)

/-- A well-formed code vector: exactly the fixed keys, in order, all values
within their per-dimension ranges. -/
def CodeWF (d : List (String × ℚ)) : Prop :=
  d.map Prod.fst = CODE_KEYS ∧ ∀ p ∈ d, codeEntryOK p

theorem CodeWF.entries {d : List (String × ℚ)} (h : CodeWF d) :
    ∀ p ∈ d, p.1 ∈ CODE_KEYS ∧ codeEntryOK p :=
  fun p hp => ⟨h.1 ▸ List.mem_map_of_mem Prod.fst hp, h.2 p hp⟩

theorem CodeWF_aset (d : List (String × ℚ)) (k : String) (v : ℚ)
    (h : CodeWF d) (hk : k ∈ CODE_KEYS) (hv : codeEntryOK (k, v)) :
    CodeWF (aset d k v) := by
  have hhas : ahas d k = true := (ahas_iff d k).mpr (h.1 ▸ hk)
  constructor
  · rw [aset_keys d k v hhas, h.1]
  · intro p hp
    rcases mem_aset d k v p hp with hin | rfl
    · exact h.2 p hin
    · exact hv

theorem agetD_ok (d : List (String × ℚ)) (k : String) (h : CodeWF d)
    (hk : k ∈ CODE_KEYS) : codeEntryOK (k, agetD d k 0) := by
  obtain ⟨v, hv⟩ := aget?_of_mem_keys (h.1 ▸ hk)
  obtain ⟨p, hp, hp1, hp2⟩ := aget?_mem hv
  have := h.2 p hp
  unfold agetD
  rw [hv]
  rw [← hp1]
  unfold codeEntryOK at this ⊢
  simpa [hp2] using this

theorem clampQ_mem (v lo hi : ℚ) (h : lo ≤ hi) :
    lo ≤ clampQ v lo hi ∧ clampQ v lo hi ≤ hi :=
  ⟨le_max_left _ _, max_le h (min_le_left _ _)⟩

theorem normalizeCode_wf (payload : List (String × JVal)) :
    CodeWF (normalizeCode payload) := by
  constructor
  · unfold normalizeCode
    rw [List.map_map]
    rfl
  · intro p hp
    unfold normalizeCode at hp
    rcases List.mem_map.mp hp with ⟨k, hk, hval⟩
    subst hval
    dsimp only
    constructor
    · intro hs
      rw [if_pos hs]
      exact clampQ_mem _ _ _ (by norm_num)
    · intro hs
      rw [if_neg hs]
      exact clampQ_mem _ _ _ (by norm_num)

theorem CodeWF_csetIf (c : Prop) [Decidable c] (k : String) (v : ℚ)
    (d : List (String × ℚ)) (h : CodeWF d) (hk : k ∈ CODE_KEYS)
    (hv : codeEntryOK (k, v)) : CodeWF (csetIf c k v d) := by
  unfold csetIf
  split
  · exact CodeWF_aset d k v h hk hv
  · exact h

theorem CodeWF_cryptoStep (c : Prop) [Decidable c] (d : List (String × ℚ))
    (h : CodeWF d) : CodeWF (cryptoStep c d) := by
  unfold cryptoStep
  split
  · dsimp only
    have h1 : CodeWF (aset d "crypto" (mkRat 8 10)) :=
      CodeWF_aset d _ _ h (by decide)
        ⟨fun hs => absurd hs (by simp), fun _ => by constructor <;> decide⟩
    apply CodeWF_aset _ _ _ h1 (by decide)
    have h2 := (agetD_ok (aset d "crypto" (mkRat 8 10)) "market" h1 (by decide)).2
      (by simp)
    exact ⟨fun hs => absurd hs (by simp),
      fun _ => ⟨le_trans h2.1 (le_max_left _ _),
        max_le h2.2 (by decide)⟩⟩
  · exact h

theorem usefulnessChain_bounds (A B C D E : Prop) [Decidable A] [Decidable B]
    [Decidable C] [Decidable D] [Decidable E] :
    (0 : ℚ) ≤ (if E then min (if D then min (if C then max (if B then max (if A then max (mkRat 25 100) (mkRat 6 10) else mkRat 25 100) (mkRat 6 10) else if A then max (mkRat 25 100) (mkRat 6 10) else mkRat 25 100) (mkRat 5 10) else if B then max (if A then max (mkRat 25 100) (mkRat 6 10) else mkRat 25 100) (mkRat 6 10) else if A then max (mkRat 25 100) (mkRat 6 10) else mkRat 25 100) (mkRat 25 100) else if C then max (if B then max (if A then max (mkRat 25 100) (mkRat 6 10) else mkRat 25 100) (mkRat 6 10) else if A then max (mkRat 25 100) (mkRat 6 10) else mkRat 25 100) (mkRat 5 10) else if B then max (if A then max (mkRat 25 100) (mkRat 6 10) else mkRat 25 100) (mkRat 6 10) else if A then max (mkRat 25 100) (mkRat 6 10) else mkRat 25 100) (mkRat 15 100) else if D then min (if C then max (if B then max (if A then max (mkRat 25 100) (mkRat 6 10) else mkRat 25 100) (mkRat 6 10) else if A then max (mkRat 25 100) (mkRat 6 10) else mkRat 25 100) (mkRat 5 10) else if B then max (if A then max (mkRat 25 100) (mkRat 6 10) else mkRat 25 100) (mkRat 6 10) else if A then max (mkRat 25 100) (mkRat 6 10) else mkRat 25 100) (mkRat 25 100) else if C then max (if B then max (if A then max (mkRat 25 100) (mkRat 6 10) else mkRat 25 100) (mkRat 6 10) else if A then max (mkRat 25 100) (mkRat 6 10) else mkRat 25 100) (mkRat 5 10) else if B then max (if A then max (mkRat 25 100) (mkRat 6 10) else mkRat 25 100) (mkRat 6 10) else if A then max (mkRat 25 100) (mkRat 6 10) else mkRat 25 100) ∧ (if E then min (if D then min (if C then max (if B then max (if A then max (mkRat 25 100) (mkRat 6 10) else mkRat 25 100) (mkRat 6 10) else if A then max (mkRat 25 100) (mkRat 6 10) else mkRat 25 100) (mkRat 5 10) else if B then max (if A then max (mkRat 25 100) (mkRat 6 10) else mkRat 25 100) (mkRat 6 10) else if A then max (mkRat 25 100) (mkRat 6 10) else mkRat 25 100) (mkRat 25 100) else if C then max (if B then max (if A then max (mkRat 25 100) (mkRat 6 10) else mkRat 25 100) (mkRat 6 10) else if A then max (mkRat 25 100) (mkRat 6 10) else mkRat 25 100) (mkRat 5 10) else if B then max (if A then max (mkRat 25 100) (mkRat 6 10) else mkRat 25 100) (mkRat 6 10) else if A then max (mkRat 25 100) (mkRat 6 10) else mkRat 25 100) (mkRat 15 100) else if D then min (if C then max (if B then max (if A then max (mkRat 25 100) (mkRat 6 10) else mkRat 25 100) (mkRat 6 10) else if A then max (mkRat 25 100) (mkRat 6 10) else mkRat 25 100) (mkRat 5 10) else if B then max (if A then max (mkRat 25 100) (mkRat 6 10) else mkRat 25 100) (mkRat 6 10) else if A then max (mkRat 25 100) (mkRat 6 10) else mkRat 25 100) (mkRat 25 100) else if C then max (if B then max (if A then max (mkRat 25 100) (mkRat 6 10) else mkRat 25 100) (mkRat 6 10) else if A then max (mkRat 25 100) (mkRat 6 10) else mkRat 25 100) (mkRat 5 10) else if B then max (if A then max (mkRat 25 100) (mkRat 6 10) else mkRat 25 100) (mkRat 6 10) else if A then max (mkRat 25 100) (mkRat 6 10) else mkRat 25 100) ≤ 1 := by
  split_ifs <;> decide

theorem entryOK_of_other (k : String) (v : ℚ) (hk : ¬k = "sentiment")
    (h0 : 0 ≤ v) (h1 : v ≤ 1) : codeEntryOK (k, v) :=
  ⟨fun hs => absurd hs hk, fun _ => ⟨h0, h1⟩⟩

theorem entryOK_sentiment (v : ℚ) (hlo : -1 ≤ v) (hhi : v ≤ 1) :
    codeEntryOK ("sentiment", v) :=
  ⟨fun _ => ⟨hlo, hhi⟩, fun hs => absurd rfl hs⟩

theorem fallbackCode_wf (tags : List String) (text : Option String) :
    CodeWF (fallbackCode tags text) := by
  unfold fallbackCode
  dsimp only
  have hbase : CodeWF
      [("sentiment", 0), ("urgency", 0), ("market", 0), ("macro", 0),
       ("geopolitics", 0), ("company", 0), ("commodities", 0), ("fx", 0),
       ("rates", 0), ("crypto", 0), ("usefulness", 0), ("ad", 0)] := by
    constructor
    · rfl
    · intro p hp
      fin_cases hp
      · exact entryOK_sentiment 0 (by norm_num) (by norm_num)
      all_goals exact entryOK_of_other _ _ (by decide) le_rfl (by norm_num)
  refine CodeWF_aset _ _ _ ?_ (by decide)
    (entryOK_of_other _ _ (by decide) (usefulnessChain_bounds _ _ _ _ _).1
      (usefulnessChain_bounds _ _ _ _ _).2)
  refine CodeWF_csetIf _ _ _ _ ?_ (by decide)
    (entryOK_of_other _ _ (by decide) (by decide) (by decide))
  refine CodeWF_csetIf _ _ _ _ ?_ (by decide)
    (entryOK_sentiment _ (by decide) (by decide))
  refine CodeWF_csetIf _ _ _ _ ?_ (by decide)
    (entryOK_sentiment _ (by decide) (by decide))
  refine CodeWF_cryptoStep _ _ ?_
  refine CodeWF_csetIf _ _ _ _ ?_ (by decide)
    (entryOK_of_other _ _ (by decide) (by decide) (by decide))
  refine CodeWF_csetIf _ _ _ _ ?_ (by decide)
    (entryOK_of_other _ _ (by decide) (by decide) (by decide))
  refine CodeWF_csetIf _ _ _ _ ?_ (by decide)
    (entryOK_of_other _ _ (by decide) (by decide) (by decide))
  refine CodeWF_csetIf _ _ _ _ ?_ (by decide)
    (entryOK_of_other _ _ (by decide) (by decide) (by decide))
  refine CodeWF_csetIf _ _ _ _ ?_ (by decide)
    (entryOK_of_other _ _ (by decide) (by decide) (by decide))
  refine CodeWF_csetIf _ _ _ _ ?_ (by decide)
    (entryOK_of_other _ _ (by decide) (by decide) (by decide))
  refine CodeWF_csetIf _ _ _ _ ?_ (by decide)
    (entryOK_of_other _ _ (by decide) (by decide) (by decide))
  exact hbase

theorem mergeStep_wf (base : List (String × ℚ)) (p : String × ℚ)
    (hb : CodeWF base) (hpk : p.1 ∈ CODE_KEYS) (hpo : codeEntryOK p) :
    CodeWF (mergeStep base p) := by
  unfold mergeStep
  split
  · split
    · exact CodeWF_aset _ _ _ hb hpk hpo
    · exact hb
  · rename_i hps
    refine CodeWF_aset _ _ _ hb hpk ?_
    have hprev := (agetD_ok base p.1 hb hpk).2 hps
    have hval := hpo.2 hps
    exact entryOK_of_other _ _ hps
      (le_trans hprev.1 (le_max_left _ _)) (max_le hprev.2 hval.2)

theorem mergeStep_untouched (base : List (String × ℚ)) (p : String × ℚ)
    (k : String) (hkp : k ≠ p.1) :
    aget? (mergeStep base p) k = aget? base k := by
  unfold mergeStep
  split
  · split
    · rw [aget?_aset_other _ _ _ _ hkp]
    · rfl
  · rw [aget?_aset_other _ _ _ _ hkp]

theorem mergeCode_cons (base : List (String × ℚ)) (p : String × ℚ)
    (rest : List (String × ℚ)) :
    mergeCode base (p :: rest) = mergeCode (mergeStep base p) rest := rfl

theorem mergeCode_wf (fb : List (String × ℚ)) :
    ∀ base : List (String × ℚ), CodeWF base →
      (∀ p ∈ fb, p.1 ∈ CODE_KEYS ∧ codeEntryOK p) →
      CodeWF (mergeCode base fb) := by
  induction fb with
  | nil => intro base hb _; exact hb
  | cons p rest ih =>
    intro base hb hf
    rw [mergeCode_cons]
    obtain ⟨hpk, hpo⟩ := hf p (List.mem_cons_self _ _)
    exact ih _ (mergeStep_wf base p hb hpk hpo)
      (fun q hq => hf q (List.mem_cons_of_mem _ hq))

theorem ollamaCode_wf (parsed : Option (List (String × JVal)))
    (cands : List String) (text : String) :
    CodeWF ((ollamaGenerateTags parsed cands text).code) := by
  cases parsed with
  | none =>
    unfold ollamaGenerateTags ollamaFallbackResult
    exact mergeCode_wf _ _ (normalizeCode_wf [])
      (fallbackCode_wf cands (some text)).entries
  | some obj =>
    unfold ollamaGenerateTags
    dsimp only
    by_cases h : obj.isEmpty
    · rw [if_pos h]
      unfold ollamaFallbackResult
      exact mergeCode_wf _ _ (normalizeCode_wf [])
        (fallbackCode_wf cands (some text)).entries
    · rw [if_neg h]
      dsimp only
      exact mergeCode_wf _ _ (normalizeCode_wf _)
        (fallbackCode_wf _ (some text)).entries

/-- Claim C2 (amended): on the direct (ollama) path, every returned code
vector carries exactly the fixed named dimensions in order, with sentiment in
[-1,1] and every other dimension in [0,1] (the well-formedness predicate
CodeWF), for every model response including malformed or out-of-range values;
the queued-job path does not clamp (see the counterexample). -/
theorem c2_code_ranges_direct (parsed : Option (List (String × JVal)))
    (cands : List String) (text : String) :
    ((ollamaGenerateTags parsed cands text).code.map Prod.fst = CODE_KEYS) ∧
    CodeWF ((ollamaGenerateTags parsed cands text).code) :=
  ⟨(ollamaCode_wf parsed cands text).1, ollamaCode_wf parsed cands text⟩

/-- Counterexample for Claim C2 as stated: on the queued-job (llm_mcp) path
generate_tags converts model code values to float without clamping and keeps
whatever keys the model sent, so a response with sentiment 5 yields a code
vector lacking the fixed dimension set and violating the [-1,1] range. -/
theorem c2_counterexample :
    (generateTagsB (some "llm_mcp") true
        (Except.ok [("data", JVal.obj [("response", JVal.str "x")])])
        (fun _ => some [("code", JVal.obj [("sentiment", JVal.num 5)])])
        none none 5 "").map (fun o => o.result.code) =
      Except.ok [("sentiment", (5 : ℚ))] ∧
    ¬((-1 : ℚ) ≤ 5 ∧ (5 : ℚ) ≤ 1) ∧
    [("sentiment", (5 : ℚ))].map Prod.fst ≠ CODE_KEYS := by
  refine ⟨rfl, by norm_num, by decide⟩

/- ### Claim C6: _merge_code pointwise behaviour -/

theorem mergeCode_untouched (fb : List (String × ℚ)) (k : String) :
    k ∉ fb.map Prod.fst →
    ∀ base : List (String × ℚ), aget? (mergeCode base fb) k = aget? base k := by
  induction fb with
  | nil => intro _ base; rfl
  | cons p rest ih =>
    intro hk base
    have hpk : k ≠ p.1 := by
      intro h
      exact hk (by rw [List.map_cons, h]; exact List.mem_cons_self _ _)
    have hk2 : k ∉ rest.map Prod.fst := fun h =>
      hk (by rw [List.map_cons]; exact List.mem_cons_of_mem _ h)
    rw [mergeCode_cons, ih hk2, mergeStep_untouched base p k hpk]

theorem mergeStep_self_sentiment (base : List (String × ℚ)) (k : String)
    (v : ℚ) (hks : k = "sentiment") :
    agetD (mergeStep base (k, v)) k 0 =
      if |agetD base k 0| < |v| then v else agetD base k 0 := by
  unfold mergeStep
  dsimp only
  rw [if_pos hks]
  by_cases hlt : |agetD base k 0| < |v|
  · rw [if_pos hlt, if_pos hlt]
    unfold agetD
    rw [aget?_aset_self]
    rfl
  · rw [if_neg hlt, if_neg hlt]

theorem mergeStep_self_other (base : List (String × ℚ)) (k : String)
    (v : ℚ) (hks : k ≠ "sentiment") :
    aget? (mergeStep base (k, v)) k = some (max (agetD base k 0) v) := by
  unfold mergeStep
  dsimp only
  rw [if_neg hks, aget?_aset_self]

theorem mergeCode_point (fb : List (String × ℚ)) :
    (fb.map Prod.fst).Nodup → ∀ (k : String) (v : ℚ), (k, v) ∈ fb →
      ∀ base : List (String × ℚ),
        (k = "sentiment" →
          agetD (mergeCode base fb) k 0 =
            (if |agetD base k 0| < |v| then v else agetD base k 0)) ∧
        (k ≠ "sentiment" →
          aget? (mergeCode base fb) k = some (max (agetD base k 0) v)) := by
  induction fb with
  | nil => intro _ k v hkv; simp at hkv
  | cons p rest ih =>
    intro hnd k v hkv base
    have hndr : (rest.map Prod.fst).Nodup := by
      rw [List.map_cons] at hnd
      exact hnd.of_cons
    have hhead : p.1 ∉ rest.map Prod.fst := by
      rw [List.map_cons] at hnd
      exact (List.nodup_cons.mp hnd).1
    rcases List.mem_cons.mp hkv with heq | hmem
    · -- the head pair is (k, v): the remaining steps leave key k untouched
      have hp : p = (k, v) := heq.symm
      subst hp
      have hunt := mergeCode_untouched rest k hhead (mergeStep base (k, v))
      have huntD : agetD (mergeCode (mergeStep base (k, v)) rest) k 0 =
          agetD (mergeStep base (k, v)) k 0 := by
        unfold agetD
        rw [hunt]
      rw [mergeCode_cons]
      constructor
      · intro hks
        rw [huntD, mergeStep_self_sentiment base k v hks]
      · intro hks
        rw [hunt, mergeStep_self_other base k v hks]
    · -- the pair sits in the tail: the head step only touches another key
      have hkp : k ≠ p.1 := by
        intro h
        exact hhead (h ▸ List.mem_map_of_mem Prod.fst hmem)
      have hih := ih hndr k v hmem (mergeStep base p)
      have hsame : aget? (mergeStep base p) k = aget? base k :=
        mergeStep_untouched base p k hkp
      rw [mergeCode_cons]
      constructor
      · intro hks
        rw [hih.1 hks]
        unfold agetD
        rw [hsame]
      · intro hks
        rw [hih.2 hks]
        unfold agetD
        rw [hsame]

/-- Claim C6: for every base and fallback code vector with duplicate-free
fallback keys, _merge_code keeps, at the sentiment key, whichever of the two
values has the larger absolute magnitude (sign preserved, ties to the base),
and at every other fallback key the maximum of the two values. -/
theorem c6_merge_code (base fb : List (String × ℚ))
    (hnd : (fb.map Prod.fst).Nodup) :
    (∀ v : ℚ, ("sentiment", v) ∈ fb →
      agetD (mergeCode base fb) "sentiment" 0 =
        (if |agetD base "sentiment" 0| < |v| then v
         else agetD base "sentiment" 0) ∧
      (agetD (mergeCode base fb) "sentiment" 0 = v ∨
       agetD (mergeCode base fb) "sentiment" 0 = agetD base "sentiment" 0) ∧
      |agetD (mergeCode base fb) "sentiment" 0| =
        max |agetD base "sentiment" 0| |v|) ∧
    (∀ (k : String) (v : ℚ), (k, v) ∈ fb → k ≠ "sentiment" →
      aget? (mergeCode base fb) k = some (max (agetD base k 0) v)) := by
  constructor
  · intro v hv
    have h1 := (mergeCode_point fb hnd "sentiment" v hv base).1 rfl
    refine ⟨h1, ?_, ?_⟩
    · rw [h1]
      split
      · exact Or.inl rfl
      · exact Or.inr rfl
    · rw [h1]
      split
      · rename_i hlt
        exact (max_eq_right (le_of_lt hlt)).symm
      · rename_i hlt
        exact (max_eq_left (not_lt.mp hlt)).symm
  · intro k v hv hks
    exact (mergeCode_point fb hnd k v hv base).2 hks

/-- Witness for Claim C6 at concrete inputs. -/
theorem c6_merge_code_witness :
    agetD (mergeCode [("sentiment", mkRat 1 2)] [("sentiment", mkRat (-3) 4)])
        "sentiment" 0 = mkRat (-3) 4 ∧
    aget? (mergeCode [("x", mkRat 1 2)] [("x", mkRat 1 4)]) "x" =
      some (max (agetD [(("x" : String), mkRat 1 2)] "x" 0) (mkRat 1 4)) := by
  constructor
  · have h := ((c6_merge_code [("sentiment", mkRat 1 2)]
      [("sentiment", mkRat (-3) 4)] (by decide)).1 (mkRat (-3) 4)
      (List.mem_cons_self _ _)).1
    rw [h]
    decide
  · exact (c6_merge_code [("x", mkRat 1 2)] [("x", mkRat 1 4)]
      (by decide)).2 "x" (mkRat 1 4) (List.mem_cons_self _ _) (by decide)

/-- Witness for Claim C10 at concrete inputs. -/
theorem c10_prepare_text_witness :
    (prepareTextForTagging "  a  b  " 10 = "a  b") ∧
    (prepareTextForTagging "abcdefghijklmnop" 10 =
      "abcdefg" ++ " ... " ++ "nop" ∧
     (sLen (prepareTextForTagging "abcdefghijklmnop" 10) : ℤ) = 10 + 5) := by
  constructor
  · have h := (c10_prepare_text "  a  b  " 10 (by decide) (by decide)).1
      (by decide)
    rw [h]
    decide
  · have h := (c10_prepare_text "abcdefghijklmnop" 10 (by decide)
      (by decide)).2 (by decide)
    exact ⟨by rw [h.1]; decide, h.2⟩

/- ### Claim C9: notifier single-send and gateway routing -/


theorem not_mcp_and_tg (handle : String) :
    ¬(sStartsWith handle "mcp:" = true ∧ sStartsWith handle "tg:" = true) := by
  rintro ⟨h1, h2⟩
  unfold sStartsWith at h1 h2
  rw [List.isPrefixOf_iff_prefix] at h1 h2
  rcases List.prefix_or_prefix_of_prefix h1 h2 with h | h <;> revert h <;> decide

theorem gatewayMcpPhase_mem (env : GatewayEnv) (handle text : String) :
    ∀ a ∈ (gatewayMcpPhase env handle text).2,
      a.isSend = false ∧ a.isDirect = false ∧
      a.isMcpSide = true ∧ sStartsWith handle "mcp:" = true := by
  unfold gatewayMcpPhase
  split
  · rename_i h
    split
    · intro a ha
      exact absurd ha (List.not_mem_nil a)
    · split
      · intro a ha
        rcases List.mem_singleton.mp ha with rfl
        exact ⟨rfl, rfl, rfl, h.1⟩
      · split
        · split
          · intro a ha
            rcases List.mem_cons.mp ha with rfl | hb
            · exact ⟨rfl, rfl, rfl, h.1⟩
            · rcases List.mem_singleton.mp hb with rfl
              exact ⟨rfl, rfl, rfl, h.1⟩
          · intro a ha
            rcases List.mem_cons.mp ha with rfl | hb
            · exact ⟨rfl, rfl, rfl, h.1⟩
            · rcases List.mem_singleton.mp hb with rfl
              exact ⟨rfl, rfl, rfl, h.1⟩
        · intro a ha
          rcases List.mem_singleton.mp ha with rfl
          exact ⟨rfl, rfl, rfl, h.1⟩
  · intro a ha
    exact absurd ha (List.not_mem_nil a)

theorem gatewayFallthrough_mem (env : GatewayEnv) (handle text : String)
    (acts : List GAction) :
    ∀ a ∈ (gatewayFallthrough env handle text acts).2,
      a ∈ acts ∨ (a.isSend = false ∧ a.isMcpSide = false ∧
        a.isDirect = true ∧ sStartsWith handle "tg:" = true) := by
  unfold gatewayFallthrough
  split
  · intro a ha
    exact Or.inl ha
  · split
    · rename_i h
      split
      · intro a ha
        exact Or.inl ha
      · split
        · intro a ha
          rcases List.mem_append.mp ha with h1 | h1
          · exact Or.inl h1
          · rcases List.mem_singleton.mp h1 with rfl
            exact Or.inr ⟨rfl, rfl, rfl, h.1⟩
        · intro a ha
          rcases List.mem_append.mp ha with h1 | h1
          · exact Or.inl h1
          · rcases List.mem_singleton.mp h1 with rfl
            exact Or.inr ⟨rfl, rfl, rfl, h.1⟩
    · intro a ha
      exact Or.inl ha

theorem gatewayEditText_mem (env : GatewayEnv) (handle text : String) :
    ∀ a ∈ (gatewayEditText env handle text).2,
      a.isSend = false ∧
      (a.isDirect = true → sStartsWith handle "tg:" = true) ∧
      (a.isMcpSide = true → sStartsWith handle "mcp:" = true) := by
  intro a ha
  unfold gatewayEditText at ha
  split at ha
  · rename_i b acts heq
    have hm : a ∈ (gatewayMcpPhase env handle text).2 := by
      rw [heq]
      exact ha
    obtain ⟨h1, h2, h3, h4⟩ := gatewayMcpPhase_mem env handle text a hm
    exact ⟨h1, fun hd => absurd (h2.symm.trans hd) Bool.false_ne_true,
      fun _ => h4⟩
  · rename_i acts heq
    rcases gatewayFallthrough_mem env handle text acts a ha with hin | hown
    · have hm : a ∈ (gatewayMcpPhase env handle text).2 := by
        rw [heq]
        exact hin
      obtain ⟨h1, h2, h3, h4⟩ := gatewayMcpPhase_mem env handle text a hm
      exact ⟨h1, fun hd => absurd (h2.symm.trans hd) Bool.false_ne_true,
        fun _ => h4⟩
    · obtain ⟨h1, h2, h3, h4⟩ := hown
      exact ⟨h1, fun _ => h4,
        fun hm => absurd (h2.symm.trans hm) Bool.false_ne_true⟩

theorem sendCount_append (x y : List NAction) :
    sendCount (x ++ y) = sendCount x + sendCount y := by
  unfold sendCount
  rw [List.filter_append, List.length_append]

theorem notifierStart_safe (s : NotifierState) (text : String) (now : ℚ)
    (sendRes : Option String) :
    (notifierStart s text now sendRes).1.disabled = true ∨
    (notifierStart s text now sendRes).1.messageHandle.isSome = true := by
  unfold notifierStart
  by_cases h : s.disabled = true
  · rw [if_pos h]
    exact Or.inl h
  · rw [if_neg h]
    dsimp only
    cases sendRes with
    | none => exact Or.inl rfl
    | some hdl => exact Or.inr rfl

theorem notifierUpdate_safe (s : NotifierState) (lines : List String)
    (now : ℚ) (sendRes : Option String) (editRes : Bool) :
    (notifierUpdate s lines now sendRes editRes).1.disabled = true ∨
    (notifierUpdate s lines now sendRes editRes).1.messageHandle.isSome = true := by
  unfold notifierUpdate
  by_cases h : s.disabled = true
  · rw [if_pos h]
    exact Or.inl h
  · rw [if_neg h]
    dsimp only
    cases hm : s.messageHandle with
    | none => exact notifierStart_safe _ _ _ _
    | some hdl =>
      dsimp only
      by_cases ht : now - s.lastEditTs < s.minInterval
      · rw [if_pos ht]
        exact Or.inr rfl
      · rw [if_neg ht]
        by_cases he : editRes = true
        · rw [if_pos he]
          exact Or.inr rfl
        · rw [if_neg he]
          exact Or.inr rfl

theorem notifierStep_safe (s : NotifierState) (e : NEvent) :
    (notifierStep s e).1.disabled = true ∨
    (notifierStep s e).1.messageHandle.isSome = true := by
  cases e with
  | start text now sendRes => exact notifierStart_safe s text now sendRes
  | update lines now sendRes editRes =>
    exact notifierUpdate_safe s lines now sendRes editRes

theorem notifierStep_send_le (s : NotifierState) (e : NEvent) :
    sendCount (notifierStep s e).2 ≤ 1 := by
  have hstart : ∀ (s : NotifierState) (text : String) (now : ℚ)
      (sendRes : Option String),
      sendCount (notifierStart s text now sendRes).2 ≤ 1 := by
    intro s text now sendRes
    unfold notifierStart
    by_cases h : s.disabled = true
    · rw [if_pos h]
      exact Nat.zero_le 1
    · rw [if_neg h]
      dsimp only
      cases sendRes with
      | none => exact le_refl 1
      | some hdl => exact le_refl 1
  cases e with
  | start text now sendRes => exact hstart s text now sendRes
  | update lines now sendRes editRes =>
    show sendCount (notifierUpdate s lines now sendRes editRes).2 ≤ 1
    unfold notifierUpdate
    by_cases h : s.disabled = true
    · rw [if_pos h]
      exact Nat.zero_le 1
    · rw [if_neg h]
      dsimp only
      cases hm : s.messageHandle with
      | none => exact hstart _ _ _ _
      | some hdl =>
        dsimp only
        by_cases ht : now - s.lastEditTs < s.minInterval
        · rw [if_pos ht]
          exact Nat.zero_le 1
        · rw [if_neg ht]
          by_cases he : editRes = true
          · rw [if_pos he]
            exact Nat.zero_le 1
          · rw [if_neg he]
            exact Nat.zero_le 1

theorem notifierUpdate_safe_noSend (s : NotifierState) (lines : List String)
    (now : ℚ) (sendRes : Option String) (editRes : Bool)
    (hs : s.disabled = true ∨ s.messageHandle.isSome = true) :
    sendCount (notifierUpdate s lines now sendRes editRes).2 = 0 := by
  unfold notifierUpdate
  by_cases h : s.disabled = true
  · rw [if_pos h]
    rfl
  · rw [if_neg h]
    dsimp only
    rcases hs with hs | hs
    · exact absurd hs h
    · cases hm : s.messageHandle with
      | none =>
        rw [hm] at hs
        simp at hs
      | some hdl =>
        dsimp only
        by_cases ht : now - s.lastEditTs < s.minInterval
        · rw [if_pos ht]
          rfl
        · rw [if_neg ht]
          by_cases he : editRes = true
          · rw [if_pos he]
            rfl
          · rw [if_neg he]
            rfl

theorem notifierRun_safe_noSend (evs : List NEvent) :
    ∀ s : NotifierState, (s.disabled = true ∨ s.messageHandle.isSome = true) →
      (∀ e ∈ evs, e.isStart = false) →
      sendCount (notifierRun s evs).2 = 0 := by
  induction evs with
  | nil =>
    intro s _ _
    rfl
  | cons e rest ih =>
    intro s hs he
    rcases hstep : notifierStep s e with ⟨s1, acts⟩
    rcases hrun : notifierRun s1 rest with ⟨s2, trace⟩
    have hsplit : (notifierRun s (e :: rest)).2 = acts ++ trace := by
      unfold notifierRun
      rw [hstep]
      dsimp only
      rw [hrun]
    rw [hsplit, sendCount_append]
    have hsafe1 : s1.disabled = true ∨ s1.messageHandle.isSome = true := by
      have hh := notifierStep_safe s e
      rw [hstep] at hh
      exact hh
    have h2 : sendCount trace = 0 := by
      have hh := ih s1 hsafe1 (fun x hx => he x (List.mem_cons_of_mem _ hx))
      rw [hrun] at hh
      exact hh
    have h1 : sendCount acts = 0 := by
      cases e with
      | start t n sr =>
        have hh := he _ (List.mem_cons_self _ _)
        simp [NEvent.isStart] at hh
      | update lines n sr er =>
        have hh : sendCount (notifierStep s (NEvent.update lines n sr er)).2 = 0 :=
          notifierUpdate_safe_noSend s lines n sr er hs
        rw [hstep] at hh
        exact hh
    omega

/-- Claim C9 (amended): over any one-process sequence of notifier calls in
which start occurs at most as the first call, at most one message is ever
sent: once a handle exists (or the notifier is disabled) updates only edit in
place or are skipped by the throttle, and a failed edit never sends; the
gateway's edit_text routes an mcp-tagged handle only to the mcp-side
transports, a tg-tagged handle only to the direct transport, and performs no
send whatsoever. A repeated start, however, does send again (see the
counterexample). -/
theorem c9_notifier_single_send (chatId : ℤ) (interval : ℚ) (evs : List NEvent)
    (h : ∀ e ∈ evs.drop 1, e.isStart = false) :
    sendCount (notifierRun (notifierInit chatId interval) evs).2 ≤ 1 ∧
    (∀ (env : GatewayEnv) (handle text : String),
      sStartsWith handle "mcp:" = true →
      ∀ a ∈ (gatewayEditText env handle text).2, a.isDirect = false) ∧
    (∀ (env : GatewayEnv) (handle text : String),
      sStartsWith handle "tg:" = true →
      ∀ a ∈ (gatewayEditText env handle text).2, a.isMcpSide = false) ∧
    (∀ (env : GatewayEnv) (handle text : String),
      ∀ a ∈ (gatewayEditText env handle text).2, a.isSend = false) := by
  refine ⟨?_, ?_, ?_, ?_⟩
  · cases evs with
    | nil => exact Nat.zero_le 1
    | cons e rest =>
      rcases hstep : notifierStep (notifierInit chatId interval) e with ⟨s1, acts⟩
      rcases hrun : notifierRun s1 rest with ⟨s2, trace⟩
      have hsplit : (notifierRun (notifierInit chatId interval) (e :: rest)).2 =
          acts ++ trace := by
        unfold notifierRun
        rw [hstep]
        dsimp only
        rw [hrun]
      rw [hsplit, sendCount_append]
      have h1 : sendCount acts ≤ 1 := by
        have hh := notifierStep_send_le (notifierInit chatId interval) e
        rw [hstep] at hh
        exact hh
      have hsafe : s1.disabled = true ∨ s1.messageHandle.isSome = true := by
        have hh := notifierStep_safe (notifierInit chatId interval) e
        rw [hstep] at hh
        exact hh
      have h2 : sendCount trace = 0 := by
        have hh := notifierRun_safe_noSend rest s1 hsafe (by simpa using h)
        rw [hrun] at hh
        exact hh
      omega
  · intro env handle text hmcp a ha
    obtain ⟨h1, h2, h3⟩ := gatewayEditText_mem env handle text a ha
    by_cases hd : a.isDirect = true
    · exact absurd ⟨hmcp, h2 hd⟩ (not_mcp_and_tg handle)
    · simpa using hd
  · intro env handle text htg a ha
    obtain ⟨h1, h2, h3⟩ := gatewayEditText_mem env handle text a ha
    by_cases hm : a.isMcpSide = true
    · exact absurd ⟨h3 hm, htg⟩ (not_mcp_and_tg handle)
    · simpa using hm
  · intro env handle text a ha
    exact (gatewayEditText_mem env handle text a ha).1

/-- Counterexample for Claim C9 as stated: a second start call after a
handle already exists sends a second message — "at most one message is ever
sent per process lifetime" fails over sequences with a repeated start. -/
theorem c9_counterexample :
    sendCount (notifierRun (notifierInit 1 (mkRat 3 2))
      [NEvent.start "a" 0 (some "mcp:1"),
       NEvent.start "b" 10 (some "mcp:2")]).2 = 2 ∧
    ¬(2 ≤ 1) := ⟨rfl, by decide⟩

/-- Witness for Claim C9 at concrete inputs. -/
theorem c9_notifier_single_send_witness :
    sendCount (notifierRun (notifierInit 1 (mkRat 3 2))
      [NEvent.start "a" 0 (some "tg:5"),
       NEvent.update ["x"] 10 none true]).2 ≤ 1 :=
  (c9_notifier_single_send 1 (mkRat 3 2)
    [NEvent.start "a" 0 (some "tg:5"),
     NEvent.update ["x"] 10 none true] (by decide)).1

/- ### Claim C1: backend failover and fallback result shape -/

/-- Claim C1: when the queued-job (llm_mcp) path of generate_tags fails, the
error propagates unchanged if the fallback flag is off, and with the flag on
the direct path is invoked (exactly once) instead; in the direct path with an
unparseable model response and non-empty candidates, the result carries the
candidates as tags, a non-empty emoji list and a non-empty code vector with
the fixed dimension set, all from the fallback heuristic scorer. -/
theorem c1_backend_failover (e : String)
    (jsonParse : String → Option (List (String × JVal)))
    (ollamaParsed : Option (List (String × JVal)))
    (cands : List String) (maxCount : ℕ) (text : String)
    (hc : cands ≠ []) :
    generateTagsB (some "llm_mcp") false (Except.error e) jsonParse
        ollamaParsed (some cands) maxCount text = Except.error e ∧
    generateTagsB (some "llm_mcp") true (Except.error e) jsonParse
        ollamaParsed (some cands) maxCount text =
      Except.ok { result := ollamaGenerateTags ollamaParsed cands text
                  backend := "ollama", ollamaCalls := 1 } ∧
    (ollamaGenerateTags none cands text).tags = cands ∧
    (ollamaGenerateTags none cands text).tags ≠ [] ∧
    (ollamaGenerateTags none cands text).emoji ≠ [] ∧
    (ollamaGenerateTags none cands text).code.map Prod.fst = CODE_KEYS ∧
    (ollamaGenerateTags none cands text).code ≠ [] := by
  refine ⟨rfl, rfl, rfl, hc, ?_, (ollamaCode_wf none cands text).1, ?_⟩
  · show fallbackEmoji cands
      (mergeCode (normalizeCode []) (fallbackCode cands (some text)))
      (some text) ≠ []
    exact (fallbackEmoji_spec cands _ (some text)).2.1
  · intro hnil
    have hk := (ollamaCode_wf none cands text).1
    rw [hnil] at hk
    exact absurd hk (by decide)

/-- Witness for Claim C1 at concrete inputs. -/
theorem c1_backend_failover_witness :
    (["X"] : List String) ≠ [] ∧
    generateTagsB (some "llm_mcp") false (Except.error "boom")
        (fun _ => none) none (some ["X"]) 5 "t" = Except.error "boom" :=
  ⟨by decide, (c1_backend_failover "boom" (fun _ => none) none ["X"] 5 "t"
    (by decide)).1⟩

/- ### Claim C5: job polling outcomes -/

theorem waitJobAux_timeout (jobId : String) (timeout : ℤ)
    (polls : ℕ → PollOutcome) :
    ∀ fuel k : ℕ,
      (∀ i, k ≤ i → i < k + fuel →
        ∃ kvs, polls i = PollOutcome.job (JVal.obj kvs) ∧
          (jobStatusStr kvs = "queued" ∨ jobStatusStr kvs = "running")) →
      waitJobAux jobId timeout polls fuel k =
        Except.error ("llm_mcp job timeout id=" ++ jobId ++ " timeout=" ++
          toString timeout ++ "s") := by
  intro fuel
  induction fuel with
  | zero =>
    intro k _
    rfl
  | succ n ih =>
    intro k h
    obtain ⟨kvs, hpoll, hstat⟩ := h k (le_refl k) (by omega)
    simp only [waitJobAux]
    rw [hpoll]
    dsimp only
    have h1 : ¬jobStatusStr kvs = "done" := by
      rcases hstat with hq | hq <;> rw [hq] <;> decide
    have h2 : ¬jobStatusStr kvs ∈ ["failed", "error", "cancelled", "canceled"] := by
      rcases hstat with hq | hq <;> rw [hq] <;> decide
    rw [if_neg h1, if_neg h2]
    exact ih (k + 1) (fun i hi1 hi2 => h i (by omega) (by omega))

/-- Claim C5: with the timeout floored at 3 seconds, polling that sees only
queued/running statuses throughout the timeout window ends in the timeout
error; a first poll with a failed/error/cancelled/canceled status raises that
failure carrying the remote error text; a first poll with status done and a
structured (object) result returns it; and an llm_mcp failure with fallback
enabled yields the direct backend's result with exactly one direct call. -/
theorem c5_wait_job (jobId : String) (timeoutSec : ℤ) (polls : ℕ → PollOutcome)
    (hnt : ∀ i, i < (2 * max 3 timeoutSec + 1).toNat →
      ∃ kvs, polls i = PollOutcome.job (JVal.obj kvs) ∧
        (jobStatusStr kvs = "queued" ∨ jobStatusStr kvs = "running")) :
    waitJobResult jobId timeoutSec polls =
      Except.error ("llm_mcp job timeout id=" ++ jobId ++ " timeout=" ++
        toString (max 3 timeoutSec) ++ "s") ∧
    (∀ (polls2 : ℕ → PollOutcome) (kvs : List (String × JVal)),
      polls2 0 = PollOutcome.job (JVal.obj kvs) →
      jobStatusStr kvs ∈ ["failed", "error", "cancelled", "canceled"] →
      waitJobResult jobId timeoutSec polls2 =
        Except.error ("llm_mcp job " ++ jobStatusStr kvs ++ ": " ++
          jobErrText kvs)) ∧
    (∀ (polls3 : ℕ → PollOutcome) (kvs res : List (String × JVal)),
      polls3 0 = PollOutcome.job (JVal.obj kvs) →
      jobStatusStr kvs = "done" →
      aget? kvs "result" = some (JVal.obj res) →
      waitJobResult jobId timeoutSec polls3 = Except.ok res) ∧
    (∀ (e : String) (jsonParse : String → Option (List (String × JVal)))
      (ollamaParsed : Option (List (String × JVal)))
      (candidates : Option (List String)) (maxCount : ℕ) (text : String),
      generateTagsB (some "llm_mcp") true (Except.error e) jsonParse
          ollamaParsed candidates maxCount text =
        Except.ok { result := ollamaGenerateTags ollamaParsed
                      (candidates.getD []) text
                    backend := "ollama", ollamaCalls := 1 }) := by
  have ht : (3 : ℤ) ≤ max 3 timeoutSec := le_max_left _ _
  obtain ⟨n, hn⟩ : ∃ n, (2 * max 3 timeoutSec + 1).toNat = n + 1 :=
    ⟨(2 * max 3 timeoutSec + 1).toNat - 1, by omega⟩
  refine ⟨?_, ?_, ?_, ?_⟩
  · unfold waitJobResult
    exact waitJobAux_timeout jobId (max 3 timeoutSec) polls _ 0
      (fun i hi1 hi2 => hnt i (by omega))
  · intro polls2 kvs hpoll hbad
    have h1 : ¬jobStatusStr kvs = "done" := by
      intro hd
      rw [hd] at hbad
      exact absurd hbad (by decide)
    unfold waitJobResult
    dsimp only
    rw [hn]
    simp only [waitJobAux]
    rw [hpoll]
    dsimp only
    rw [if_neg h1, if_pos hbad]
  · intro polls3 kvs res hpoll hdone hres
    unfold waitJobResult
    dsimp only
    rw [hn]
    simp only [waitJobAux]
    rw [hpoll]
    dsimp only
    rw [if_pos hdone, hres]
  · intro e jsonParse ollamaParsed candidates maxCount text
    rfl

/-- Witness for Claim C5 at concrete inputs. -/
theorem c5_wait_job_witness :
    waitJobResult "jid" 0
      (fun _ => PollOutcome.job (JVal.obj [("status", JVal.str "running")])) =
      Except.error ("llm_mcp job timeout id=" ++ "jid" ++ " timeout=" ++
        toString (max 3 (0 : ℤ)) ++ "s") :=
  (c5_wait_job "jid" 0
    (fun _ => PollOutcome.job (JVal.obj [("status", JVal.str "running")]))
    (fun i _ =>
      ⟨[("status", JVal.str "running")], rfl, Or.inr rfl⟩)).1
